import Mathlib

/-!
Verification of the recurrence-rule engine of go-todo (`internal/api/nextdate.go`).

The engine works on `time.Time` values that are always normalized to midnight
UTC, so a time is embedded as a day number (days since 1970-01-01) plus a
second-of-day component that only matters before midnight normalization.
Calendar conversions (the semantics of Go's `time.Date`, `AddDate`, `Year`,
`Month`, `Day`, `Weekday`) are embedded as day-number arithmetic over the
proleptic Gregorian calendar.
-/

/- ### Calendar: day numbers of the proleptic Gregorian calendar -/

/-- Day count (relative to 1970-01-01) from a shifted year (March-based),
shifted month index `mp` (0 = March .. 11 = February) and 1-based day. -/
def toDaysAux (ys mp d : Int) : Int :=
  365 * ys + ys / 4 - ys / 100 + ys / 400 + (153 * mp + 2) / 5 + (d - 1) - 719468

/-- Day count of a civil date (month in 1..12); day may be out of range, in
which case the date normalizes exactly as Go's `time.Date` does. -/
def toDays (y m d : Int) : Int :=
  toDaysAux (if m ≤ 2 then y - 1 else y) ((m + 9) % 12) d

/-- Era (400-year block) of a day number. -/
def fdEra (z : Int) : Int := (z + 719468) / 146097

/-- Day of era, in `[0, 146096]`. -/
def fdDoe (z : Int) : Int := (z + 719468) - fdEra z * 146097

/-- Century within the era, in `[0, 3]`. -/
def fdCent (z : Int) : Int := min (fdDoe z / 36524) 3

/-- Day of century. -/
def fdDoc (z : Int) : Int := fdDoe z - 36524 * fdCent z

/-- Year of century, in `[0, 99]`, by the Julian four-year-cycle formula. -/
def fdYoc (z : Int) : Int := (4 * fdDoc z + 3) / 1461

/-- Day of the (March-based) year, in `[0, 365]`. -/
def fdDoy (z : Int) : Int := fdDoc z - 1461 * fdYoc z / 4

/-- Year of era, in `[0, 399]`. -/
def fdYoe (z : Int) : Int := 100 * fdCent z + fdYoc z

/-- Shifted month index of the day within its year, 0 = March .. 11 = February. -/
def fdMp (z : Int) : Int := (5 * fdDoy z + 2) / 153

/-- Day of month (1-based) of a day number. -/
def fdD (z : Int) : Int := fdDoy z - (153 * fdMp z + 2) / 5 + 1

/-- Civil month (1..12) of a day number. -/
def fdM (z : Int) : Int := if fdMp z < 10 then fdMp z + 3 else fdMp z - 9

/-- Civil year of a day number. -/
def fdYear (z : Int) : Int :=
  if fdM z ≤ 2 then fdYoe z + fdEra z * 400 + 1 else fdYoe z + fdEra z * 400

/-- Civil (year, month, day) of a day number; the semantics of Go's
`Time.Date()` for a midnight-UTC time. -/
def fromDays (z : Int) : Int × Int × Int := (fdYear z, fdM z, fdD z)

/-- Go's leap-year predicate (`isLeap` in the `time` package). -/
def isLeap (y : Int) : Bool := y % 4 = 0 && (y % 100 != 0 || y % 400 = 0)

/-- Go's month-length table (`daysIn` in the `time` package). -/
def daysIn (y m : Int) : Int :=
  if m = 2 then (if isLeap y then 29 else 28)
  else if m = 4 ∨ m = 6 ∨ m = 9 ∨ m = 11 then 30 else 31

theorem fdDoe_bounds (z : Int) : 0 ≤ fdDoe z ∧ fdDoe z < 146097 := by
  unfold fdDoe fdEra; omega

theorem fdCent_bounds (z : Int) : 0 ≤ fdCent z ∧ fdCent z ≤ 3 := by
  have h := fdDoe_bounds z
  unfold fdCent
  omega

theorem fdDoc_bounds (z : Int) :
    0 ≤ fdDoc z ∧ fdDoc z ≤ 36524 ∧ (fdDoc z = 36524 → fdCent z = 3) := by
  have h := fdDoe_bounds z
  unfold fdDoc fdCent
  omega

theorem fdYoc_bounds (z : Int) : 0 ≤ fdYoc z ∧ fdYoc z ≤ 99 := by
  have h := fdDoc_bounds z
  unfold fdYoc
  omega

theorem fdDoy_bounds (z : Int) :
    0 ≤ fdDoy z ∧ fdDoy z ≤ 365 ∧
    (fdDoy z = 365 → fdYoc z % 4 = 3 ∧ (fdYoc z = 99 → fdCent z = 3)) := by
  have h := fdDoc_bounds z
  unfold fdDoy fdYoc fdDoc fdCent
  omega

theorem fdMp_bounds (z : Int) : 0 ≤ fdMp z ∧ fdMp z ≤ 11 := by
  have h := fdDoy_bounds z
  unfold fdMp
  omega

theorem fdD_bounds (z : Int) : 1 ≤ fdD z ∧ fdD z ≤ 31 := by
  have h := fdDoy_bounds z
  have h2 := fdMp_bounds z
  unfold fdD fdMp
  omega

theorem fdM_bounds (z : Int) : 1 ≤ fdM z ∧ fdM z ≤ 12 := by
  have h := fdMp_bounds z
  unfold fdM
  omega

/-- Rebuilding the day number from its extracted calendar components is the
identity: `toDays` is a left inverse of `fromDays` on all of `Int`. -/
theorem toDays_fromDays (z : Int) : toDays (fdYear z) (fdM z) (fdD z) = z := by
  have hmp := fdMp_bounds z
  have hyoc := fdYoc_bounds z
  have hcent := fdCent_bounds z
  have hdoy := fdDoy_bounds z
  have hdoeb := fdDoe_bounds z
  have hkey : toDaysAux (fdYoe z + fdEra z * 400) (fdMp z) (fdD z) = z := by
    have hd : fdD z = fdDoy z - (153 * fdMp z + 2) / 5 + 1 := rfl
    have hdoyv : fdDoy z = fdDoc z - 1461 * fdYoc z / 4 := rfl
    have hyocv : fdYoc z = (4 * fdDoc z + 3) / 1461 := rfl
    have hdocv : fdDoc z = fdDoe z - 36524 * fdCent z := rfl
    have hcentv : fdCent z = min (fdDoe z / 36524) 3 := rfl
    have hdoev : fdDoe z = (z + 719468) - fdEra z * 146097 := rfl
    have herav : fdEra z = (z + 719468) / 146097 := rfl
    have hyoev : fdYoe z = 100 * fdCent z + fdYoc z := rfl
    have h4 : (fdYoe z + fdEra z * 400) / 4 = fdEra z * 100 + fdCent z * 25 + fdYoc z / 4 := by
      rw [hyoev]; omega
    have h100 : (fdYoe z + fdEra z * 400) / 100 = fdEra z * 4 + fdCent z := by
      rw [hyoev]; omega
    have h400 : (fdYoe z + fdEra z * 400) / 400 = fdEra z := by
      rw [hyoev]; omega
    have h1461 : 1461 * fdYoc z / 4 = 365 * fdYoc z + fdYoc z / 4 := by omega
    unfold toDaysAux
    generalize fdD z = d at *
    generalize fdDoy z = doy at *
    generalize fdMp z = mp at *
    generalize fdYoe z = yoe at *
    generalize fdYoc z = yoc at *
    generalize fdDoc z = doc at *
    generalize fdCent z = c at *
    generalize fdDoe z = doe at *
    generalize fdEra z = era at *
    omega
  by_cases h10 : fdMp z < 10
  · have hm : fdM z = fdMp z + 3 := by unfold fdM; rw [if_pos h10]
    have hy : fdYear z = fdYoe z + fdEra z * 400 := by
      unfold fdYear
      rw [hm, if_neg (by omega)]
    rw [hm, hy]
    unfold toDays
    rw [if_neg (by omega), show (fdMp z + 3 + 9) % 12 = fdMp z by omega]
    exact hkey
  · have hm : fdM z = fdMp z - 9 := by unfold fdM; rw [if_neg h10]
    have hy : fdYear z = fdYoe z + fdEra z * 400 + 1 := by
      unfold fdYear
      rw [hm, if_pos (by omega)]
    rw [hm, hy]
    unfold toDays
    rw [if_pos (by omega), show (fdMp z - 9 + 9) % 12 = fdMp z by omega,
        show fdYoe z + fdEra z * 400 + 1 - 1 = fdYoe z + fdEra z * 400 by ring]
    exact hkey

/-- Day-of-year bounds for a valid (shifted-month, day) pair, carrying the
leap-year side conditions needed at era boundaries. -/
theorem dayNum_doyb (mp d S C : Int) (h0 : 0 ≤ mp) (h11 : mp ≤ 11) (hd1 : 1 ≤ d)
    (hSb : 0 ≤ S ∧ S ≤ 99) (hCb : 0 ≤ C ∧ C ≤ 3)
    (hlen10 : mp ≤ 10 → d ≤ (153 * (mp + 1) + 2) / 5 - (153 * mp + 2) / 5)
    (hFeb : mp = 11 → d ≤ 29 ∧ (d = 29 →
      (S + 1) % 4 = 0 ∧ ((S + 1) % 100 ≠ 0 ∨ (100 * C + S + 1) % 400 = 0))) :
    0 ≤ (153 * mp + 2) / 5 + (d - 1) ∧ (153 * mp + 2) / 5 + (d - 1) ≤ 365 ∧
    ((153 * mp + 2) / 5 + (d - 1) = 365 → S % 4 = 3 ∧ (S = 99 → C = 3)) := by
  by_cases hfeb : mp = 11
  · have h1 := hFeb hfeb
    subst hfeb
    omega
  · have h1 := hlen10 (by omega)
    omega

/-- The era quotient of a decomposed day number. -/
theorem dayNum_era (E C S doy z : Int)
    (hCb : 0 ≤ C ∧ C ≤ 3) (hSb : 0 ≤ S ∧ S ≤ 99)
    (hdoy : 0 ≤ doy ∧ doy ≤ 365 ∧ (doy = 365 → S % 4 = 3 ∧ (S = 99 → C = 3)))
    (hval : 146097 * E + 36524 * C + 1461 * S / 4 + doy - 719468 = z) :
    (z + 719468) / 146097 = E ∧
    z + 719468 - E * 146097 = 36524 * C + 1461 * S / 4 + doy := by
  omega

/-- The century quotient of a decomposed day-of-era. -/
theorem dayNum_cent (C S doy doe : Int)
    (hCb : 0 ≤ C ∧ C ≤ 3) (hSb : 0 ≤ S ∧ S ≤ 99)
    (hdoy : 0 ≤ doy ∧ doy ≤ 365 ∧ (doy = 365 → S % 4 = 3 ∧ (S = 99 → C = 3)))
    (hdoe : doe = 36524 * C + 1461 * S / 4 + doy) :
    min (doe / 36524) 3 = C ∧ doe - 36524 * C = 1461 * S / 4 + doy := by
  omega

/-- The year-of-century quotient of a decomposed day-of-century. -/
theorem dayNum_yoc (S doy doc : Int) (hSb : 0 ≤ S ∧ S ≤ 99)
    (hdoy : 0 ≤ doy ∧ doy ≤ 365 ∧ (doy = 365 → S % 4 = 3))
    (hdoc : doc = 1461 * S / 4 + doy) :
    (4 * doc + 3) / 1461 = S ∧ doc - 1461 * S / 4 = doy := by
  omega

/-- The month extraction from a day-of-year built from a valid (month, day) pair. -/
theorem dayNum_mp (mp d : Int) (h0 : 0 ≤ mp) (h11 : mp ≤ 11) (hd1 : 1 ≤ d)
    (hlen10 : mp ≤ 10 → d ≤ (153 * (mp + 1) + 2) / 5 - (153 * mp + 2) / 5)
    (hFeb : mp = 11 → d ≤ 29) :
    (5 * ((153 * mp + 2) / 5 + (d - 1)) + 2) / 153 = mp := by
  by_cases hfeb : mp = 11
  · subst hfeb
    omega
  · have h1 := hlen10 (by omega)
    omega

set_option maxHeartbeats 1000000 in
/-- Core inversion: the day-count of a valid (shifted-year, shifted-month, day)
triple breaks back down into the same triple. -/
theorem fd_core (ys mp d : Int) (h0 : 0 ≤ mp) (h11 : mp ≤ 11) (hd1 : 1 ≤ d)
    (hlen10 : mp ≤ 10 → d ≤ (153 * (mp + 1) + 2) / 5 - (153 * mp + 2) / 5)
    (hlenFeb : mp = 11 → d ≤ 29 ∧ (d = 29 →
      (ys + 1) % 4 = 0 ∧ ((ys + 1) % 100 ≠ 0 ∨ (ys + 1) % 400 = 0))) :
    fdYoe (toDaysAux ys mp d) + fdEra (toDaysAux ys mp d) * 400 = ys ∧
    fdMp (toDaysAux ys mp d) = mp ∧
    fdD (toDaysAux ys mp d) = d := by
  generalize hzz : toDaysAux ys mp d = z
  unfold toDaysAux at hzz
  generalize hE400 : ys / 400 = E at hzz
  generalize hC100 : ys % 400 / 100 = C at hzz
  generalize hS : ys % 400 % 100 = S at hzz
  have hEb : ys = 400 * E + 100 * C + S := by omega
  have hCb : 0 ≤ C ∧ C ≤ 3 := by omega
  have hSb : 0 ≤ S ∧ S ≤ 99 := by omega
  have hFeb : mp = 11 → d ≤ 29 ∧ (d = 29 →
      (S + 1) % 4 = 0 ∧ ((S + 1) % 100 ≠ 0 ∨ (100 * C + S + 1) % 400 = 0)) := by
    intro h
    obtain ⟨ha, hb⟩ := hlenFeb h
    exact ⟨ha, fun hc => by have := hb hc; omega⟩
  clear hlenFeb
  have hys4 : ys / 4 = 100 * E + 25 * C + S / 4 := by omega
  have hys100 : ys / 100 = 4 * E + C := by omega
  have h1461 : 1461 * S / 4 = 365 * S + S / 4 := by omega
  have hval : 146097 * E + 36524 * C + 1461 * S / 4 + ((153 * mp + 2) / 5 + (d - 1))
      - 719468 = z := by omega
  clear hys4 hys100 h1461 hzz hE400 hC100 hS
  generalize hdoy9 : (153 * mp + 2) / 5 + (d - 1) = doy at hval
  have hdoyb : 0 ≤ doy ∧ doy ≤ 365 ∧ (doy = 365 → S % 4 = 3 ∧ (S = 99 → C = 3)) := by
    rw [← hdoy9]
    exact dayNum_doyb mp d S C h0 h11 hd1 hSb hCb hlen10 hFeb
  have hera9 := dayNum_era E C S doy z hCb hSb hdoyb (by omega)
  have hera : fdEra z = E := hera9.1
  have hdoe : fdDoe z = 36524 * C + 1461 * S / 4 + doy := by
    unfold fdDoe
    rw [hera]
    exact hera9.2
  have hcent9 := dayNum_cent C S doy (fdDoe z) hCb hSb hdoyb hdoe
  have hcent : fdCent z = C := hcent9.1
  have hdoc : fdDoc z = 1461 * S / 4 + doy := by
    unfold fdDoc
    rw [hcent]
    exact hcent9.2
  have hyoc9 := dayNum_yoc S doy (fdDoc z) hSb ⟨hdoyb.1, hdoyb.2.1, fun h => (hdoyb.2.2 h).1⟩ hdoc
  have hyoc : fdYoc z = S := hyoc9.1
  have hdoy : fdDoy z = doy := by
    unfold fdDoy
    rw [hyoc]
    exact hyoc9.2
  have hmpz : fdMp z = mp := by
    unfold fdMp
    rw [hdoy, ← hdoy9]
    exact dayNum_mp mp d h0 h11 hd1 hlen10 (fun h => (hFeb h).1)
  have hdz : fdD z = d := by
    unfold fdD
    rw [hmpz, hdoy]
    omega
  have hyoe : fdYoe z = 100 * C + S := by
    unfold fdYoe
    rw [hcent, hyoc]
  refine ⟨by rw [hyoe, hera]; omega, hmpz, hdz⟩

/-- `isLeap` unfolded to arithmetic. -/
theorem isLeap_iff (y : Int) :
    isLeap y = true ↔ (y % 4 = 0 ∧ (y % 100 ≠ 0 ∨ y % 400 = 0)) := by
  unfold isLeap
  simp only [Bool.and_eq_true, decide_eq_true_eq, Bool.or_eq_true, bne_iff_ne]

/-- Month lengths are between 28 and 31. -/
theorem daysIn_bounds (y m : Int) : 28 ≤ daysIn y m ∧ daysIn y m ≤ 31 := by
  unfold daysIn
  split
  · split <;> omega
  · split <;> omega

/-- A valid day bound `d ≤ daysIn y m` rephrased for the shifted-calendar
formulas: the division form for non-February months, and the leap-year
arithmetic for February. -/
theorem daysIn_cases (y m d : Int) (h1 : 1 ≤ m) (h2 : m ≤ 12) (hd : d ≤ daysIn y m) :
    (m ≠ 2 → d ≤ (153 * ((m + 9) % 12 + 1) + 2) / 5 - (153 * ((m + 9) % 12) + 2) / 5) ∧
    (m = 2 → d ≤ 29 ∧ (d = 29 → y % 4 = 0 ∧ (y % 100 ≠ 0 ∨ y % 400 = 0))) := by
  constructor
  · intro hne
    interval_cases m <;> simp [daysIn] at hd <;> omega
  · intro he
    subst he
    by_cases hl : isLeap y = true
    · have h29 : daysIn y 2 = 29 := by
        unfold daysIn
        rw [if_pos rfl, if_pos hl]
      rw [h29] at hd
      exact ⟨hd, fun _ => (isLeap_iff y).mp hl⟩
    · have h28 : daysIn y 2 = 28 := by
        unfold daysIn
        rw [if_pos rfl, if_neg hl]
      rw [h28] at hd
      exact ⟨by omega, fun h => by omega⟩


/-- Round trip: converting a valid civil date to its day number and back
recovers the same (year, month, day). -/
theorem fromDays_toDays (y m d : Int) (h1 : 1 ≤ m) (h2 : m ≤ 12)
    (h3 : 1 ≤ d) (h4 : d ≤ daysIn y m) :
    fdYear (toDays y m d) = y ∧ fdM (toDays y m d) = m ∧ fdD (toDays y m d) = d := by
  have hc := daysIn_cases y m d h1 h2 h4
  by_cases hm2 : m ≤ 2
  · have hmp : (m + 9) % 12 = m + 9 := by omega
    have hys : (if m ≤ 2 then y - 1 else y) = y - 1 := if_pos hm2
    have hcore := fd_core (y - 1) (m + 9) d (by omega) (by omega) h3
      (fun h => by
        have h' := hc.1 (by omega)
        rw [hmp] at h'
        exact h')
      (fun h => by
        have h' := hc.2 (by omega)
        rw [show y - 1 + 1 = y from by ring]
        exact h')
    unfold toDays
    rw [hys, hmp]
    obtain ⟨ha, hb, hcd⟩ := hcore
    have hfm : fdM (toDaysAux (y - 1) (m + 9) d) = m := by
      unfold fdM
      rw [hb, if_neg (by omega)]
      omega
    refine ⟨?_, hfm, hcd⟩
    unfold fdYear
    rw [hfm, if_pos hm2]
    omega
  · have hmp : (m + 9) % 12 = m - 3 := by omega
    have hys : (if m ≤ 2 then y - 1 else y) = y := if_neg hm2
    have hcore := fd_core y (m - 3) d (by omega) (by omega) h3
      (fun h => by
        have h' := hc.1 (by omega)
        rw [hmp] at h'
        exact h')
      (fun h => by omega)
    unfold toDays
    rw [hys, hmp]
    obtain ⟨ha, hb, hcd⟩ := hcore
    have hfm : fdM (toDaysAux y (m - 3) d) = m := by
      unfold fdM
      rw [hb, if_pos (by omega)]
      omega
    refine ⟨?_, hfm, hcd⟩
    unfold fdYear
    rw [hfm, if_neg hm2]
    omega

/-- The components extracted from any day number form a valid civil date. -/
theorem fromDays_valid (z : Int) : fdD z ≤ daysIn (fdYear z) (fdM z) := by
  have hdoyb := fdDoy_bounds z
  have hmpb := fdMp_bounds z
  have hyocb := fdYoc_bounds z
  have hcentb := fdCent_bounds z
  have hdval : fdD z = fdDoy z - (153 * fdMp z + 2) / 5 + 1 := rfl
  have hmpval : fdMp z = (5 * fdDoy z + 2) / 153 := rfl
  have hyoev : fdYoe z = 100 * fdCent z + fdYoc z := rfl
  by_cases h11 : fdMp z = 11
  · have hm : fdM z = 2 := by unfold fdM; rw [if_neg (by omega)]; omega
    have hy : fdYear z = fdYoe z + fdEra z * 400 + 1 := by
      unfold fdYear; rw [hm, if_pos (by omega)]
    rw [hm]
    unfold daysIn
    rw [if_pos rfl]
    by_cases hl : isLeap (fdYear z) = true
    · rw [if_pos hl]
      omega
    · rw [if_neg hl]
      rw [isLeap_iff] at hl
      push_neg at hl
      by_contra hcon
      have hd29 : fdD z = 29 := by omega
      have hdoy365 : fdDoy z = 365 := by omega
      have hleapfacts := hdoyb.2.2 hdoy365
      rw [hy, hyoev] at hl
      omega
  · have hmne : fdM z ≠ 2 := by
      unfold fdM
      split <;> omega
    have h10 : fdMp z ≤ 10 := by omega
    unfold daysIn
    rw [if_neg hmne]
    have hmv : fdM z = if fdMp z < 10 then fdMp z + 3 else fdMp z - 9 := rfl
    split
    · omega
    · omega


/-- Day-count contribution of the shifted year. -/
def ysPart (ys : Int) : Int := 365 * ys + ys / 4 - ys / 100 + ys / 400

theorem toDaysAux_eq (ys mp d : Int) :
    toDaysAux ys mp d = ysPart ys + ((153 * mp + 2) / 5 + (d - 1)) - 719468 := by
  unfold toDaysAux ysPart
  ring

theorem toDaysAux_add_d (ys mp d n : Int) :
    toDaysAux ys mp (d + n) = toDaysAux ys mp d + n := by
  unfold toDaysAux
  ring

theorem toDays_add_d (y m d n : Int) : toDays y m (d + n) = toDays y m d + n := by
  unfold toDays
  exact toDaysAux_add_d _ _ d n

/-- One shifted year advances the day count by 365 or 366; exactly 366 when the
civil year `ys + 1` (the one containing the extra February day) is leap. -/
theorem ysPart_succ (ys : Int) :
    365 ≤ ysPart (ys + 1) - ysPart ys ∧ ysPart (ys + 1) - ysPart ys ≤ 366 ∧
    (ysPart (ys + 1) - ysPart ys = 365 →
      ¬((ys + 1) % 4 = 0 ∧ ((ys + 1) % 100 ≠ 0 ∨ (ys + 1) % 400 = 0))) ∧
    (((ys + 1) % 4 = 0 ∧ ((ys + 1) % 100 ≠ 0 ∨ (ys + 1) % 400 = 0)) →
      ysPart (ys + 1) - ysPart ys = 366) := by
  unfold ysPart
  omega

theorem ysPart_mono (ys : Int) (k : Nat) : ysPart ys + 365 * k ≤ ysPart (ys + k) := by
  induction k with
  | zero => simp
  | succ n ih =>
    have hs := ysPart_succ (ys + n)
    have hc : ((n + 1 : Nat) : Int) = (n : Int) + 1 := by push_cast; ring
    rw [hc]
    have : ys + ((n : Int) + 1) = (ys + n) + 1 := by ring
    rw [this]
    omega

/-- Strict monotonicity of the day count in the lexicographic
(shifted-year, shifted-month) order, for valid dates. -/
theorem toDaysAux_lt (ys mp d ys' mp' d' : Int)
    (hmpb : 0 ≤ mp ∧ mp ≤ 11) (hmpb' : 0 ≤ mp' ∧ mp' ≤ 11)
    (hd1 : 1 ≤ d) (hd1' : 1 ≤ d')
    (hlen10 : mp ≤ 10 → d ≤ (153 * (mp + 1) + 2) / 5 - (153 * mp + 2) / 5)
    (hFeb : mp = 11 → d ≤ 29 ∧ (d = 29 →
      (ys + 1) % 4 = 0 ∧ ((ys + 1) % 100 ≠ 0 ∨ (ys + 1) % 400 = 0)))
    (hlex : ys < ys' ∨ (ys = ys' ∧ mp < mp')) :
    toDaysAux ys mp d < toDaysAux ys' mp' d' := by
  rcases hlex with hys | ⟨heq, hmp⟩
  · -- strictly later shifted year
    have hdoy : (153 * mp + 2) / 5 + (d - 1) ≤ 365 ∧
        ((153 * mp + 2) / 5 + (d - 1) = 365 →
          (ys + 1) % 4 = 0 ∧ ((ys + 1) % 100 ≠ 0 ∨ (ys + 1) % 400 = 0)) := by
      by_cases hfeb : mp = 11
      · have h1 := hFeb hfeb
        subst hfeb
        constructor
        · omega
        · intro h
          exact h1.2 (by omega)
      · have h1 := hlen10 (by omega)
        constructor
        · omega
        · intro h
          omega
    have hsucc := ysPart_succ ys
    have hmono := ysPart_mono (ys + 1) (ys' - ys - 1).toNat
    have hcast : (ys + 1) + (((ys' - ys - 1).toNat : Nat) : Int) = ys' := by omega
    rw [hcast] at hmono
    rw [toDaysAux_eq, toDaysAux_eq]
    have hmp0' : 0 ≤ (153 * mp' + 2) / 5 := by omega
    omega
  · -- same shifted year, strictly later shifted month
    subst heq
    have h1 := hlen10 (by omega)
    rw [toDaysAux_eq, toDaysAux_eq]
    omega

/-- Strict monotonicity of `toDays` for valid dates in the lexicographic
(year, month) order. -/
theorem toDays_lt_of_lex (y m d y' m' d' : Int)
    (h1 : 1 ≤ m) (h2 : m ≤ 12) (h3 : 1 ≤ d) (h4 : d ≤ daysIn y m)
    (h1' : 1 ≤ m') (h2' : m' ≤ 12) (h3' : 1 ≤ d')
    (hlex : y < y' ∨ (y = y' ∧ m < m')) :
    toDays y m d < toDays y' m' d' := by
  have hc := daysIn_cases y m d h1 h2 h4
  unfold toDays
  by_cases hm2 : m ≤ 2 <;> by_cases hm2' : m' ≤ 2
  · rw [if_pos hm2, if_pos hm2', show (m + 9) % 12 = m + 9 from by omega,
      show (m' + 9) % 12 = m' + 9 from by omega]
    refine toDaysAux_lt _ _ _ _ _ _ (by omega) (by omega) h3 h3' ?_ ?_ (by omega)
    · intro h
      have h' := hc.1 (by omega)
      rw [show (m + 9) % 12 = m + 9 from by omega] at h'
      exact h'
    · intro h
      have h' := hc.2 (by omega)
      rw [show y - 1 + 1 = y from by ring]
      exact h'
  · rw [if_pos hm2, if_neg hm2', show (m + 9) % 12 = m + 9 from by omega,
      show (m' + 9) % 12 = m' - 3 from by omega]
    refine toDaysAux_lt _ _ _ _ _ _ (by omega) (by omega) h3 h3' ?_ ?_ (by omega)
    · intro h
      have h' := hc.1 (by omega)
      rw [show (m + 9) % 12 = m + 9 from by omega] at h'
      exact h'
    · intro h
      have h' := hc.2 (by omega)
      rw [show y - 1 + 1 = y from by ring]
      exact h'
  · rw [if_neg hm2, if_pos hm2', show (m + 9) % 12 = m - 3 from by omega,
      show (m' + 9) % 12 = m' + 9 from by omega]
    refine toDaysAux_lt _ _ _ _ _ _ (by omega) (by omega) h3 h3' ?_ (by omega) (by omega)
    intro h
    have h' := hc.1 (by omega)
    rw [show (m + 9) % 12 = m - 3 from by omega] at h'
    exact h'
  · rw [if_neg hm2, if_neg hm2', show (m + 9) % 12 = m - 3 from by omega,
      show (m' + 9) % 12 = m' - 3 from by omega]
    refine toDaysAux_lt _ _ _ _ _ _ (by omega) (by omega) h3 h3' ?_ (by omega) (by omega)
    intro h
    have h' := hc.1 (by omega)
    rw [show (m + 9) % 12 = m - 3 from by omega] at h'
    exact h'

/-- Adding one civil year advances the day count by at least 365 days
(month in 1..12). -/
theorem toDays_year_succ_ge (y m d : Int) (h1 : 1 ≤ m) (h2 : m ≤ 12) :
    toDays y m d + 365 ≤ toDays (y + 1) m d := by
  unfold toDays
  have hif : (if m ≤ 2 then y + 1 - 1 else y + 1) = (if m ≤ 2 then y - 1 else y) + 1 := by
    split <;> ring
  rw [hif, toDaysAux_eq, toDaysAux_eq]
  have hs := ysPart_succ (if m ≤ 2 then y - 1 else y)
  omega


/- ### Go time values (always UTC; day number plus seconds into the day) -/

/-- A Go `time.Time` in UTC, at second granularity: `day` counts days since
1970-01-01 and `sec` is the second of the day. All times the engine builds
are midnights (`sec = 0`); a nonzero `sec` can only enter through the caller's
`now`, which the engine immediately normalizes. -/
structure GoTime where
  day : Int
  sec : Int
deriving DecidableEq

/-- Go `t.Before(u)`. -/
def goBefore (a b : GoTime) : Bool :=
  decide (a.day < b.day) || (decide (a.day = b.day) && decide (a.sec < b.sec))

/-- Day number of Go `time.Date(y, m, d, 0, 0, 0, 0, time.UTC)`: months outside
1..12 roll into adjacent years, and days outside the month's range roll into
adjacent months, exactly as in Go. -/
def mkDate (y m d : Int) : Int :=
  toDays (y + (m - 1) / 12) ((m - 1) % 12 + 1) d

/-- Go `time.Date(y, m, d, 0, 0, 0, 0, time.UTC)` as a `GoTime`. -/
def goDate (y m d : Int) : GoTime := ⟨mkDate y m d, 0⟩

/-- Go `t.Year()`. -/
def goYear (t : GoTime) : Int := fdYear t.day

/-- Go `int(t.Month())`. -/
def goMonth (t : GoTime) : Int := fdM t.day

/-- Go `t.Day()`. -/
def goDay (t : GoTime) : Int := fdD t.day

/-- Go `t.AddDate(yy, mm, dd)`. -/
def addDate (t : GoTime) (yy mm dd : Int) : GoTime :=
  ⟨mkDate (goYear t + yy) (goMonth t + mm) (goDay t + dd), t.sec⟩

/-- Go `int(t.Weekday())`: 0 = Sunday .. 6 = Saturday (1970-01-01 was a
Thursday, weekday 4). -/
def goWeekday (t : GoTime) : Int := (t.day + 4) % 7

theorem mkDate_eq_toDays (y m d : Int) (h1 : 1 ≤ m) (h2 : m ≤ 12) :
    mkDate y m d = toDays y m d := by
  unfold mkDate
  rw [show y + (m - 1) / 12 = y from by omega, show (m - 1) % 12 + 1 = m from by omega]

/-- `AddDate(0, 0, n)` adds exactly `n` days. -/
theorem addDate_days (t : GoTime) (n : Int) :
    (addDate t 0 0 n).day = t.day + n ∧ (addDate t 0 0 n).sec = t.sec := by
  refine ⟨?_, rfl⟩
  show mkDate (goYear t + 0) (goMonth t + 0) (goDay t + n) = t.day + n
  have hm := fdM_bounds t.day
  rw [add_zero, add_zero]
  unfold goYear goMonth goDay
  rw [mkDate_eq_toDays _ _ _ hm.1 hm.2, toDays_add_d, toDays_fromDays]

/-- `AddDate(1, 0, 0)` lands on the (not yet normalized) date
(year + 1, month, day). -/
theorem addDate_year_day (t : GoTime) :
    (addDate t 1 0 0).day = toDays (fdYear t.day + 1) (fdM t.day) (fdD t.day) ∧
    (addDate t 1 0 0).sec = t.sec := by
  refine ⟨?_, rfl⟩
  show mkDate (goYear t + 1) (goMonth t + 0) (goDay t + 0) = _
  have hm := fdM_bounds t.day
  rw [add_zero, add_zero]
  unfold goYear goMonth goDay
  rw [mkDate_eq_toDays _ _ _ hm.1 hm.2]

/-- `AddDate(1, 0, 0)` advances the day number by at least 365 days. -/
theorem addDate_year_ge (t : GoTime) : t.day + 365 ≤ (addDate t 1 0 0).day := by
  rw [(addDate_year_day t).1]
  have hm := fdM_bounds t.day
  have h := toDays_year_succ_ge (fdYear t.day) (fdM t.day) (fdD t.day) hm.1 hm.2
  rw [toDays_fromDays] at h
  exact h

/-- Month boundary: the first of the next month is the day after the last day
of this month (months 1..11 within a year). -/
theorem month_boundary (y m : Int) (h1 : 1 ≤ m) (h2 : m ≤ 11) :
    toDays y (m + 1) 1 = toDays y m (daysIn y m) + 1 := by
  by_cases hfeb : m = 2
  · subst hfeb
    unfold daysIn
    rw [if_pos rfl]
    by_cases hl : isLeap y = true
    · rw [if_pos hl]
      rw [isLeap_iff] at hl
      unfold toDays toDaysAux
      omega
    · rw [if_neg hl]
      rw [isLeap_iff] at hl
      push_neg at hl
      unfold toDays toDaysAux
      omega
  · have hd : daysIn y m = if m = 4 ∨ m = 6 ∨ m = 9 ∨ m = 11 then 30 else 31 := by
      unfold daysIn
      rw [if_neg hfeb]
    interval_cases m <;> simp only [hd] <;> norm_num <;> unfold toDays toDaysAux <;> omega

/-- Year boundary: January 1 is the day after December 31. -/
theorem year_boundary (y : Int) : toDays (y + 1) 1 1 = toDays y 12 31 + 1 := by
  unfold toDays toDaysAux
  norm_num
  omega


/-- February 29 pushed into a non-leap year normalizes to March 1, like Go's
`time.Date`. -/
theorem feb29_norm (y : Int) (hl : isLeap y = true) :
    toDays (y + 1) 2 29 = toDays (y + 1) 3 1 := by
  rw [isLeap_iff] at hl
  unfold toDays toDaysAux
  norm_num
  omega

/- ### Strings: TrimSpace, Split, Atoi, the rule patterns, date parse/format -/

/-- Go's `unicode.IsSpace`. -/
def isGoSpace (c : Char) : Bool :=
  c == ' ' || c == '\t' || c == '\n' || c == '\u000b' || c == '\u000c' || c == '\r' ||
  c == '\u0085' || c == ' ' || c == ' ' ||
  (decide (' ' ≤ c) && decide (c ≤ ' ')) ||
  c == ' ' || c == ' ' || c == ' ' || c == ' ' || c == '　'

/-- Drop leading whitespace. -/
def trimLeftL : List Char → List Char
  | [] => []
  | c :: r => if isGoSpace c then trimLeftL r else c :: r

/-- Drop trailing whitespace. -/
def trimRightL (l : List Char) : List Char := (trimLeftL l.reverse).reverse

/-- Go's `strings.TrimSpace`. -/
def goTrimSpace (s : String) : String := ⟨trimRightL (trimLeftL s.data)⟩

/-- Go's `strings.Split(s, sep)` for a single-character separator; always
returns at least one piece. -/
def splitChar (sep : Char) : List Char → List (List Char)
  | [] => [[]]
  | c :: r =>
    if c = sep then [] :: splitChar sep r
    else
      match splitChar sep r with
      | [] => [[c]]
      | t :: ts => (c :: t) :: ts

/-- Numeric value of a decimal digit character. -/
def digitVal (c : Char) : Int := (c.toNat : Int) - 48

/-- Digit-folding loop of `strconv.Atoi`. -/
def goAtoiLoop (acc : Int) : List Char → Option Int
  | [] => some acc
  | c :: r => if c.isDigit then goAtoiLoop (acc * 10 + digitVal c) r else none

/-- Go's `strconv.Atoi` (overflow ignored: every use in the engine is behind a
pattern that caps the field at three characters). -/
def goAtoi (cs : List Char) : Option Int :=
  match cs with
  | [] => none
  | '+' :: r => if r = [] then none else goAtoiLoop 0 r
  | '-' :: r => if r = [] then none else (goAtoiLoop 0 r).map (fun v => -v)
  | _ => goAtoiLoop 0 cs

/-- The pattern `^d \d{1,3}$` (`reDay` in the source). -/
def reDay (cs : List Char) : Bool :=
  match cs with
  | 'd' :: ' ' :: rest =>
    rest.all (fun c => c.isDigit) && decide (1 ≤ rest.length) && decide (rest.length ≤ 3)
  | _ => false

/-- The pattern `^y$` (`reYear` in the source). -/
def reYear (cs : List Char) : Bool := cs = ['y']

/-- The pattern `^w \d(,[\d])*$` (`reWeek` in the source): a nonempty
comma-separated list of single digits after `w `. -/
def reWeek (cs : List Char) : Bool :=
  match cs with
  | 'w' :: ' ' :: rest =>
    (splitChar ',' rest).all (fun t =>
      match t with
      | [c] => c.isDigit
      | _ => false)
  | _ => false

/-- One token of the monthly pattern: `-?\d{1,2}` (minus sign only allowed when
`neg` is true). -/
def isNumTok (neg : Bool) (t : List Char) : Bool :=
  match t with
  | ['-', c] => neg && c.isDigit
  | ['-', c1, c2] => neg && c1.isDigit && c2.isDigit
  | [c] => c.isDigit
  | [c1, c2] => c1.isDigit && c2.isDigit
  | _ => false

/-- The pattern `^m -?\d{1,2}(,-?\d{1,2})*( \d{1,2}(,\d{1,2})*)?$` (`reMonth`
in the source): after `m `, one or two space-separated groups of
comma-separated tokens. -/
def reMonth (cs : List Char) : Bool :=
  match cs with
  | 'm' :: ' ' :: rest =>
    match splitChar ' ' rest with
    | [g1] => (splitChar ',' g1).all (isNumTok true)
    | [g1, g2] => (splitChar ',' g1).all (isNumTok true) && (splitChar ',' g2).all (isNumTok false)
    | _ => false
  | _ => false

/-- Range validation of a parsed (year, month, day): month 1..12, day within
the month's length; a midnight UTC time on success. -/
def parseDateChecked (y m d : Int) : Option GoTime :=
  if 1 ≤ m ∧ m ≤ 12 ∧ 1 ≤ d ∧ d ≤ daysIn y m then some ⟨toDays y m d, 0⟩ else none

/-- Go's `time.Parse("20060102", s)`: exactly eight digits, then the range
checks of `parseDateChecked`. -/
def parseDateDB (s : String) : Option GoTime :=
  match s.data with
  | [y1, y2, y3, y4, m1, m2, d1, d2] =>
    if y1.isDigit && y2.isDigit && y3.isDigit && y4.isDigit &&
       m1.isDigit && m2.isDigit && d1.isDigit && d2.isDigit then
      parseDateChecked
        (digitVal y1 * 1000 + digitVal y2 * 100 + digitVal y3 * 10 + digitVal y4)
        (digitVal m1 * 10 + digitVal m2)
        (digitVal d1 * 10 + digitVal d2)
    else none
  | _ => none

/-- Decimal digits of `n`, zero-padded to width `w`. -/
def padNum (w : Nat) (n : Int) : List Char :=
  let ds := Nat.toDigits 10 n.toNat
  List.replicate (w - ds.length) '0' ++ ds

/-- Go's `t.Format("20060102")`. -/
def formatDate (t : GoTime) : String :=
  ⟨padNum 4 (goYear t) ++ padNum 2 (goMonth t) ++ padNum 2 (goDay t)⟩

/- ### The engine (`internal/api/nextdate.go`) -/

/-- The failure kinds of `NextDate`, one per `fmt.Errorf` site in the source.
In the spec's taxonomy: `emptyRule` is EmptyRule; `parseStart` is
InvalidDateSyntax; `invalidDayValue` .. `invalidMonthInterval` are
InvalidNumericField; `noMatchingDay` is NoMatchingDay; `unsupportedFormat` is
UnsupportedFormat. -/
inductive NdError where
  | emptyRule
  | parseStart
  | invalidDayValue
  | invalidDayInterval
  | invalidWeekdayValue
  | invalidWeekdayInterval
  | invalidMonthdayValue
  | invalidMonthdayInterval
  | invalidMonthValue
  | invalidMonthInterval
  | noMatchingDay
  | unsupportedFormat
deriving DecidableEq

def maxDaysInterval : Int := 400
def sundayNum : Int := 7
def expectedPartsWithMonths : Nat := 3
def lastDayOfMonth : Int := -1
def beforeLastDayOfMonth : Int := -2
def allMonths : List Int := [1, 2, 3, 4, 5, 6, 7, 8, 9, 10, 11, 12]

/-- `afterNow(now, date)`: whether `date` is after `now`. -/
def afterNow (now date : GoTime) : Bool := goBefore now date

/-- `midnight(t)`: same calendar day at 00:00:00 UTC. -/
def midnight (t : GoTime) : GoTime := ⟨t.day, 0⟩

/-- `computeBaseTime(now, startDate)`. -/
def computeBaseTime (now startDate : GoTime) : GoTime :=
  if afterNow now startDate then startDate else now

/-- Adjacent-duplicate removal (`slices.Compact`) on a sorted list. -/
def compactAdj : List Int → List Int
  | [] => []
  | [a] => [a]
  | a :: b :: rest =>
    if a = b then compactAdj (b :: rest) else a :: compactAdj (b :: rest)

/-- `sortUniqueInts`: `slices.Sort` then `slices.Compact`. -/
def sortUniqueInts (l : List Int) : List Int :=
  compactAdj (List.insertionSort (· ≤ ·) l)

/-- `computeLastMonthDay(year, month, loc)`: the day component of
`time.Date(year, month+1, 0, ...)`. -/
def computeLastMonthDay (year month : Int) : Int := fdD (mkDate year (month + 1) 0)

/-- `resolveDays(monthDaysInt, y, m, loc)`: negative day specs resolve relative
to day `d+1` of month `m+1`; the result is sorted and deduplicated. -/
def resolveDays (monthDaysInt : List Int) (y m : Int) : List Int :=
  sortUniqueInts (monthDaysInt.map (fun d =>
    if d < 0 then fdD (mkDate y (m + 1) (d + 1)) else d))

/-- The `for` loop of `nextDaily`: keep adding `days` days until the result is
after `now`. Recursion is well-founded on the gap to `now`; spelled with
`WellFounded.fix` so that the one-step unfolding equation is
`WellFounded.fix_eq`. -/
def dailyLoop (now : GoTime) (days : Int) (h : 0 < days) : GoTime → GoTime :=
  WellFounded.fix (measure fun s : GoTime => ((now.day + 1) - s.day).toNat).wf
    (fun startDate rec =>
      if hc : afterNow now (addDate startDate 0 0 days) = true then addDate startDate 0 0 days
      else
        rec (addDate startDate 0 0 days) (by
          have hd := (addDate startDate 0 0 days).day = startDate.day + days
          have hd2 := (addDate_days startDate days).1
          unfold afterNow goBefore at hc
          simp only [Bool.or_eq_true, Bool.and_eq_true, decide_eq_true_eq] at hc
          show ((now.day + 1) - (addDate startDate 0 0 days).day).toNat <
            ((now.day + 1) - startDate.day).toNat
          omega))

/-- `nextDaily(now, startDate, repeat)`. -/
def nextDaily (now startDate : GoTime) (rep : String) : Except NdError String :=
  let parts := splitChar ' ' rep.data
  match goAtoi (parts.getD 1 []) with
  | none => .error .invalidDayValue
  | some days =>
    if h : days ≤ 0 ∨ days > maxDaysInterval then .error .invalidDayInterval
    else .ok (formatDate (dailyLoop now days (by unfold maxDaysInterval at h; omega) startDate))

/-- The `for` loop of `nextYearly`: keep adding one year until after `now`,
spelled with `WellFounded.fix` like `dailyLoop`. -/
def yearlyLoop (now : GoTime) : GoTime → GoTime :=
  WellFounded.fix (measure fun s : GoTime => ((now.day + 1) - s.day).toNat).wf
    (fun startDate rec =>
      if hc : afterNow now (addDate startDate 1 0 0) = true then addDate startDate 1 0 0
      else
        rec (addDate startDate 1 0 0) (by
          have hd := addDate_year_ge startDate
          unfold afterNow goBefore at hc
          simp only [Bool.or_eq_true, Bool.and_eq_true, decide_eq_true_eq] at hc
          show ((now.day + 1) - (addDate startDate 1 0 0).day).toNat <
            ((now.day + 1) - startDate.day).toNat
          omega))

/-- `nextYearly(now, startDate)`. -/
def nextYearly (now startDate : GoTime) : Except NdError String :=
  .ok (formatDate (yearlyLoop now startDate))

/-- The weekday-parsing loop of `nextWeekly`: `Atoi` each piece and range-check
it into 1..7. -/
def parseWeekdayList : List (List Char) → Except NdError (List Int)
  | [] => .ok []
  | wd :: rest =>
    match goAtoi wd with
    | none => .error .invalidWeekdayValue
    | some wdNum =>
      if wdNum ≤ 0 ∨ wdNum > 7 then .error .invalidWeekdayInterval
      else
        match parseWeekdayList rest with
        | .error e => .error e
        | .ok l => .ok (wdNum :: l)

/-- The scan of `nextWeekly`: the first listed weekday strictly greater than
the current one, as an offset; 0 when there is none. -/
def findWeekOffset (current : Int) : List Int → Int
  | [] => 0
  | wd :: rest => if current < wd then wd - current else findWeekOffset current rest

/-- `nextWeekly(now, startDate, repeat)`. -/
def nextWeekly (now startDate : GoTime) (rep : String) : Except NdError String :=
  let parts := splitChar ' ' rep.data
  let weekDaysStr := splitChar ',' (parts.getD 1 [])
  match parseWeekdayList weekDaysStr with
  | .error e => .error e
  | .ok weekDaysRaw =>
    let weekDaysInt := sortUniqueInts weekDaysRaw
    let baseTime := computeBaseTime now startDate
    let wd0 := goWeekday baseTime
    let currentWeekDay := if wd0 = 0 then sundayNum else wd0
    let offset := findWeekOffset currentWeekDay weekDaysInt
    let daysToAdd := if offset = 0 then 7 - currentWeekDay + weekDaysInt.headI else offset
    .ok (formatDate (addDate baseTime 0 0 daysToAdd))

/-- The monthday-parsing loop of `nextMonthly`. -/
def parseMonthdayList : List (List Char) → Except NdError (List Int)
  | [] => .ok []
  | md :: rest =>
    match goAtoi md with
    | none => .error .invalidMonthdayValue
    | some mdNum =>
      if (mdNum ≠ lastDayOfMonth ∧ mdNum ≠ beforeLastDayOfMonth) ∧ (mdNum ≤ 0 ∨ mdNum > 31)
      then .error .invalidMonthdayInterval
      else
        match parseMonthdayList rest with
        | .error e => .error e
        | .ok l => .ok (mdNum :: l)

/-- The month-parsing loop of `nextMonthly`. -/
def parseMonthList : List (List Char) → Except NdError (List Int)
  | [] => .ok []
  | ms :: rest =>
    match goAtoi ms with
    | none => .error .invalidMonthValue
    | some mNum =>
      if mNum ≤ 0 ∨ mNum > 12 then .error .invalidMonthInterval
      else
        match parseMonthList rest with
        | .error e => .error e
        | .ok l => .ok (mNum :: l)

/-- Inner day loop of phase 1 of `nextMonthly` (current year): days above the
month's length break out; in the current month, days at or before the current
day are skipped; the first fit returns. The Go code formats the date at each
return site; here the date is returned and formatted by the caller. -/
def phase1Days (baseTime : GoTime) (currentYear currentMonth currentMonthDay m : Int) :
    List Int → Option GoTime
  | [] => none
  | md :: rest =>
    let maxMonthDay := computeLastMonthDay currentYear m
    if md > maxMonthDay then none
    else if currentMonth = m then
      if md ≤ currentMonthDay then
        phase1Days baseTime currentYear currentMonth currentMonthDay m rest
      else some (addDate baseTime 0 0 (md - currentMonthDay))
    else some (goDate currentYear m md)

/-- Outer month loop of phase 1 of `nextMonthly`: months at or after the
current month, in list order. -/
def phase1 (baseTime : GoTime) (currentYear currentMonth currentMonthDay : Int)
    (monthDaysInt : List Int) : List Int → Option GoTime
  | [] => none
  | m :: rest =>
    if currentMonth ≤ m then
      match phase1Days baseTime currentYear currentMonth currentMonthDay m
          (resolveDays monthDaysInt currentYear m) with
      | some t => some t
      | none => phase1 baseTime currentYear currentMonth currentMonthDay monthDaysInt rest
    else phase1 baseTime currentYear currentMonth currentMonthDay monthDaysInt rest

/-- Inner day loop of phase 2 of `nextMonthly` (next year): the first day
either fits (return) or overflows the month (break). -/
def phase2Days (nextYear m : Int) : List Int → Option GoTime
  | [] => none
  | md :: _ =>
    let maxMonthDay := computeLastMonthDay nextYear m
    if md > maxMonthDay then none
    else some (goDate nextYear m md)

/-- Outer month loop of phase 2 of `nextMonthly`. -/
def phase2 (nextYear : Int) (monthDaysInt : List Int) : List Int → Option GoTime
  | [] => none
  | m :: rest =>
    match phase2Days nextYear m (resolveDays monthDaysInt nextYear m) with
    | some t => some t
    | none => phase2 nextYear monthDaysInt rest

/-- `nextMonthly(now, startDate, repeat)`. -/
def nextMonthly (now startDate : GoTime) (rep : String) : Except NdError String :=
  let parts := splitChar ' ' rep.data
  match parseMonthdayList (splitChar ',' (parts.getD 1 [])) with
  | .error e => .error e
  | .ok monthDaysRaw =>
    let monthDaysInt := sortUniqueInts monthDaysRaw
    match (if parts.length = expectedPartsWithMonths
           then (parseMonthList (splitChar ',' (parts.getD 2 []))).map sortUniqueInts
           else .ok []) with
    | .error e => .error e
    | .ok monthsParsed =>
      let monthsInt := if monthsParsed = [] then allMonths else monthsParsed
      let baseTime := computeBaseTime now startDate
      let currentMonth := goMonth baseTime
      let currentMonthDay := goDay baseTime
      let currentYear := goYear baseTime
      let nextYear := currentYear + 1
      match phase1 baseTime currentYear currentMonth currentMonthDay monthDaysInt monthsInt with
      | some t => .ok (formatDate t)
      | none =>
        match phase2 nextYear monthDaysInt monthsInt with
        | some t => .ok (formatDate t)
        | none => .error .noMatchingDay

/-- `NextDate(now, dStart, repeat)`: trim both strings, reject an empty rule,
parse the start date, normalize `now` to midnight, then dispatch on the four
rule patterns. -/
def NextDate (now : GoTime) (dStart rep0 : String) : Except NdError String :=
  let rep := goTrimSpace rep0
  let dStartT := goTrimSpace dStart
  if rep = "" then .error .emptyRule
  else
    match parseDateDB dStartT with
    | none => .error .parseStart
    | some startDate =>
      let nowM := midnight now
      if reDay rep.data then nextDaily nowM startDate rep
      else if reYear rep.data then nextYearly nowM startDate
      else if reWeek rep.data then nextWeekly nowM startDate rep
      else if reMonth rep.data then nextMonthly nowM startDate rep
      else .error .unsupportedFormat


/- ### String-layer lemmas -/

theorem trimLeftL_head (l : List Char) :
    ∀ c t, trimLeftL l = c :: t → isGoSpace c = false := by
  induction l with
  | nil => intro c t h; simp [trimLeftL] at h
  | cons a r ih =>
    intro c t h
    unfold trimLeftL at h
    by_cases ha : isGoSpace a = true
    · rw [if_pos ha] at h
      exact ih c t h
    · rw [if_neg ha] at h
      injection h with h1 _
      subst h1
      simpa using ha

theorem trimLeftL_of_head (l : List Char)
    (h : ∀ c t, l = c :: t → isGoSpace c = false) : trimLeftL l = l := by
  cases l with
  | nil => rfl
  | cons a r =>
    unfold trimLeftL
    rw [if_neg]
    simp [h a r rfl]

theorem trimLeftL_idem (l : List Char) : trimLeftL (trimLeftL l) = trimLeftL l :=
  trimLeftL_of_head _ (trimLeftL_head l)

theorem trimLeftL_isDrop (l : List Char) : ∃ n, trimLeftL l = l.drop n := by
  induction l with
  | nil => exact ⟨0, rfl⟩
  | cons a r ih =>
    by_cases ha : isGoSpace a = true
    · obtain ⟨n, hn⟩ := ih
      refine ⟨n + 1, ?_⟩
      unfold trimLeftL
      rw [if_pos ha]
      simpa using hn
    · refine ⟨0, ?_⟩
      unfold trimLeftL
      rw [if_neg ha]
      rfl

theorem take_head (l : List Char) (k : Nat) (c : Char) (t : List Char)
    (h : l.take k = c :: t) : ∃ w, l = c :: w := by
  cases l with
  | nil => simp at h
  | cons a r =>
    cases k with
    | zero => simp at h
    | succ n =>
      rw [List.take_succ_cons] at h
      injection h with h1 _
      exact ⟨r, by rw [h1]⟩

theorem rev_drop_rev (l : List Char) (n : Nat) :
    (l.reverse.drop n).reverse = l.take (l.length - n) := by
  rw [← List.rdrop_eq_reverse_drop_reverse]
  rfl

theorem head_trimRightL (l : List Char) (c : Char) (t : List Char)
    (h : trimRightL l = c :: t) : ∃ w, l = c :: w := by
  unfold trimRightL at h
  obtain ⟨n, hn⟩ := trimLeftL_isDrop l.reverse
  rw [hn, rev_drop_rev] at h
  exact take_head l _ c t h

theorem trimRightL_idem (l : List Char) : trimRightL (trimRightL l) = trimRightL l := by
  unfold trimRightL
  rw [List.reverse_reverse, trimLeftL_idem]

theorem goTrimSpace_idem (s : String) : goTrimSpace (goTrimSpace s) = goTrimSpace s := by
  unfold goTrimSpace
  have hdata : (String.mk (trimRightL (trimLeftL s.data))).data
      = trimRightL (trimLeftL s.data) := rfl
  rw [hdata]
  have hL : trimLeftL (trimRightL (trimLeftL s.data)) = trimRightL (trimLeftL s.data) := by
    apply trimLeftL_of_head
    intro c t h
    obtain ⟨w, hw⟩ := head_trimRightL _ _ _ h
    exact trimLeftL_head s.data c w hw
  rw [hL, trimRightL_idem]

theorem string_ne_empty (s : String) (h : s.data ≠ []) : s ≠ "" := by
  intro he
  apply h
  rw [he]

theorem splitChar_ne_nil (sep : Char) (cs : List Char) : splitChar sep cs ≠ [] := by
  cases cs with
  | nil => simp [splitChar]
  | cons c r =>
    unfold splitChar
    split
    · simp
    · split <;> simp

/-- Shape of a successful date parse: a valid civil date at midnight. -/
theorem parseDateDB_shape (s : String) (t : GoTime) (h : parseDateDB s = some t) :
    ∃ y m d, 1 ≤ m ∧ m ≤ 12 ∧ 1 ≤ d ∧ d ≤ daysIn y m ∧ t = ⟨toDays y m d, 0⟩ := by
  unfold parseDateDB at h
  split at h
  · split at h
    · unfold parseDateChecked at h
      split at h
      · rename_i hrange
        injection h with h1
        exact ⟨_, _, _, hrange.1, hrange.2.1, hrange.2.2.1, hrange.2.2.2, h1.symm⟩
      · exact absurd h (by simp)
    · exact absurd h (by simp)
  · exact absurd h (by simp)

/-- `afterNow` on midnight values is the strict day-number order. -/
theorem afterNow_iff (a b : GoTime) (ha : a.sec = 0) (hb : b.sec = 0) :
    afterNow a b = true ↔ a.day < b.day := by
  unfold afterNow goBefore
  simp [ha, hb]

theorem computeBaseTime_cases (now s : GoTime) :
    (afterNow now s = true ∧ computeBaseTime now s = s) ∨
    (afterNow now s = false ∧ computeBaseTime now s = now) := by
  unfold computeBaseTime
  by_cases h : afterNow now s = true
  · rw [if_pos h]
    exact Or.inl ⟨h, rfl⟩
  · rw [if_neg h]
    exact Or.inr ⟨by simpa using h, rfl⟩


/- ### Loop unfolding equations -/

theorem dailyLoop_unfold (now : GoTime) (n : Int) (h : 0 < n) (s : GoTime) :
    dailyLoop now n h s =
    if afterNow now (addDate s 0 0 n) then addDate s 0 0 n
    else dailyLoop now n h (addDate s 0 0 n) := by
  show WellFounded.fix _ _ s = _
  rw [WellFounded.fix_eq]
  by_cases hc : afterNow now (addDate s 0 0 n) = true
  · rw [if_pos hc]
    exact dif_pos hc
  · rw [if_neg hc]
    exact dif_neg hc

theorem yearlyLoop_unfold (now s : GoTime) :
    yearlyLoop now s =
    if afterNow now (addDate s 1 0 0) then addDate s 1 0 0
    else yearlyLoop now (addDate s 1 0 0) := by
  show WellFounded.fix _ _ s = _
  rw [WellFounded.fix_eq]
  by_cases hc : afterNow now (addDate s 1 0 0) = true
  · rw [if_pos hc]
    exact dif_pos hc
  · rw [if_neg hc]
    exact dif_neg hc

/- ### Daily loop characterization -/

theorem GoTime.ext' (a b : GoTime) (h1 : a.day = b.day) (h2 : a.sec = b.sec) : a = b := by
  cases a
  cases b
  simp_all

/-- For `0 < n`, `max 1 (g / n + 1)` is the least `k ≥ 1` with `g < k * n`. -/
theorem least_step (g n : Int) (hn : 0 < n) :
    1 ≤ max 1 (g / n + 1) ∧ g < max 1 (g / n + 1) * n ∧
    ∀ j : Int, 1 ≤ j → g < j * n → max 1 (g / n + 1) ≤ j := by
  have hqr : n * (g / n) + g % n = g := Int.ediv_add_emod g n
  have hr0 : 0 ≤ g % n := Int.emod_nonneg g (by omega)
  have hrn : g % n < n := Int.emod_lt_of_pos g hn
  refine ⟨le_max_left 1 _, ?_, ?_⟩
  · rcases le_total (g / n + 1) 1 with hle | hle
    · rw [max_eq_left hle, one_mul]
      have hq0 : g / n ≤ 0 := by omega
      have hnq : n * (g / n) ≤ n * 0 := mul_le_mul_of_nonneg_left hq0 (le_of_lt hn)
      rw [mul_zero] at hnq
      linarith
    · rw [max_eq_right hle]
      have hexp : (g / n + 1) * n = n * (g / n) + n := by ring
      rw [hexp]
      linarith
  · intro j hj hlt
    have hdiv : g / n < j := by
      by_contra hcon
      push_neg at hcon
      have hmm : j * n ≤ (g / n) * n := mul_le_mul_of_nonneg_right hcon (le_of_lt hn)
      have hcomm : (g / n) * n = n * (g / n) := by ring
      linarith
    rcases le_total (g / n + 1) 1 with hle | hle
    · rw [max_eq_left hle]
      exact hj
    · rw [max_eq_right hle]
      exact Int.add_one_le_iff.mpr hdiv

/-- The daily loop lands exactly on `start + k·n` for the least `k ≥ 1` that
passes `now` (in closed form: `k = max 1 ((now - start) / n + 1)`). -/
theorem dailyLoop_day (now : GoTime) (n : Int) (h : 0 < n) :
    ∀ (fuel : Nat) (s : GoTime), ((now.day + 1) - s.day).toNat = fuel →
      now.sec = 0 → s.sec = 0 →
      dailyLoop now n h s = ⟨s.day + max 1 ((now.day - s.day) / n + 1) * n, 0⟩ := by
  intro fuel
  induction fuel using Nat.strong_induction_on with
  | _ fuel ih =>
    intro s hfuel hnsec hssec
    have hadd := addDate_days s n
    rw [dailyLoop_unfold]
    by_cases hc : afterNow now (addDate s 0 0 n) = true
    · rw [if_pos hc]
      rw [afterNow_iff _ _ hnsec (by rw [hadd.2]; exact hssec), hadd.1] at hc
      have hq : (now.day - s.day) / n < 1 := by
        by_contra hcon
        push_neg at hcon
        have hqr : n * ((now.day - s.day) / n) + (now.day - s.day) % n = now.day - s.day :=
          Int.ediv_add_emod _ n
        have hr0 : 0 ≤ (now.day - s.day) % n := Int.emod_nonneg _ (by omega)
        have hmul : n * 1 ≤ n * ((now.day - s.day) / n) :=
          mul_le_mul_of_nonneg_left hcon (le_of_lt h)
        rw [mul_one] at hmul
        omega
      have hmax : max 1 ((now.day - s.day) / n + 1) = 1 :=
        max_eq_left (Int.add_one_le_iff.mpr hq)
      rw [hmax, one_mul]
      exact GoTime.ext' _ _ (by rw [hadd.1]) (by rw [hadd.2]; exact hssec)
    · rw [if_neg hc]
      rw [afterNow_iff _ _ hnsec (by rw [hadd.2]; exact hssec), hadd.1] at hc
      push_neg at hc
      have hrec := ih (((now.day + 1) - (addDate s 0 0 n).day).toNat)
        (by rw [hadd.1]; omega) (addDate s 0 0 n) rfl hnsec (by rw [hadd.2]; exact hssec)
      rw [hrec]
      have hq1 : 1 ≤ (now.day - s.day) / n := by
        by_contra hcon
        push_neg at hcon
        have hqr : n * ((now.day - s.day) / n) + (now.day - s.day) % n = now.day - s.day :=
          Int.ediv_add_emod _ n
        have hrn : (now.day - s.day) % n < n := Int.emod_lt_of_pos _ h
        have hnq : n * ((now.day - s.day) / n) ≤ n * 0 :=
          mul_le_mul_of_nonneg_left (by omega) (le_of_lt h)
        rw [mul_zero] at hnq
        omega
      have hshift : (now.day - (addDate s 0 0 n).day) / n = (now.day - s.day) / n - 1 := by
        rw [hadd.1]
        rw [show now.day - (s.day + n) = (now.day - s.day) + (-1) * n from by ring,
          Int.add_mul_ediv_right _ _ (show n ≠ 0 from by omega)]
        ring
      rw [hshift]
      have e1 : max 1 ((now.day - s.day) / n - 1 + 1) = (now.day - s.day) / n := by
        rw [show (now.day - s.day) / n - 1 + 1 = (now.day - s.day) / n from by ring]
        exact max_eq_right hq1
      have e2 : max 1 ((now.day - s.day) / n + 1) = (now.day - s.day) / n + 1 :=
        max_eq_right (by linarith)
      rw [e1, e2]
      exact GoTime.ext' _ _ (by rw [hadd.1]; ring) rfl

/-- `nextDaily` in closed form for a valid interval. -/
theorem nextDaily_spec (now startDate : GoTime) (rep : String) (n : Int)
    (hn : goAtoi ((splitChar ' ' rep.data).getD 1 []) = some n)
    (h1 : 1 ≤ n) (h2 : n ≤ 400) (hnsec : now.sec = 0) (hssec : startDate.sec = 0) :
    nextDaily now startDate rep =
      .ok (formatDate ⟨startDate.day + max 1 ((now.day - startDate.day) / n + 1) * n, 0⟩) := by
  unfold nextDaily
  dsimp only
  rw [hn]
  dsimp only
  rw [dif_neg (show ¬(n ≤ 0 ∨ n > maxDaysInterval) from by unfold maxDaysInterval; omega)]
  rw [dailyLoop_day now n (by omega) (((now.day + 1) - startDate.day).toNat) startDate rfl
    hnsec hssec]

/- ### Rule-pattern shapes and the dispatch of NextDate -/

theorem reDay_shape (cs : List Char) (h : reDay cs = true) :
    ∃ t, cs = 'd' :: ' ' :: t := by
  unfold reDay at h
  split at h
  · rename_i rest
    exact ⟨rest, rfl⟩
  · exact absurd h (by simp)

theorem reYear_shape (cs : List Char) (h : reYear cs = true) : cs = ['y'] := by
  unfold reYear at h
  exact of_decide_eq_true h

theorem reWeek_shape (cs : List Char) (h : reWeek cs = true) :
    ∃ t, cs = 'w' :: ' ' :: t := by
  unfold reWeek at h
  split at h
  · rename_i rest
    exact ⟨rest, rfl⟩
  · exact absurd h (by simp)

theorem reMonth_shape (cs : List Char) (h : reMonth cs = true) :
    ∃ t, cs = 'm' :: ' ' :: t := by
  unfold reMonth at h
  split at h
  · rename_i rest
    exact ⟨rest, rfl⟩
  · exact absurd h (by simp)

/-- Dispatch of `NextDate` into `nextDaily` when the daily pattern matches. -/
theorem nextDate_daily (now start : GoTime) (dS rep : String)
    (hmatch : reDay (goTrimSpace rep).data = true)
    (hparse : parseDateDB (goTrimSpace dS) = some start) :
    NextDate now dS rep = nextDaily (midnight now) start (goTrimSpace rep) := by
  obtain ⟨t, ht⟩ := reDay_shape _ hmatch
  unfold NextDate
  dsimp only
  rw [if_neg (string_ne_empty _ (by rw [ht]; simp)), hparse]
  dsimp only
  rw [if_pos hmatch]

/-- Dispatch of `NextDate` into `nextYearly` when the yearly pattern matches. -/
theorem nextDate_yearly (now start : GoTime) (dS rep : String)
    (hrep : goTrimSpace rep = "y")
    (hparse : parseDateDB (goTrimSpace dS) = some start) :
    NextDate now dS rep = nextYearly (midnight now) start := by
  unfold NextDate
  dsimp only
  rw [hrep, if_neg (by decide), hparse]
  dsimp only
  rw [if_neg (by decide), if_pos (by decide)]

/-- Dispatch of `NextDate` into `nextWeekly` when the weekly pattern matches. -/
theorem nextDate_weekly (now start : GoTime) (dS rep : String)
    (hmatch : reWeek (goTrimSpace rep).data = true)
    (hparse : parseDateDB (goTrimSpace dS) = some start) :
    NextDate now dS rep = nextWeekly (midnight now) start (goTrimSpace rep) := by
  obtain ⟨t, ht⟩ := reWeek_shape _ hmatch
  unfold NextDate
  dsimp only
  rw [if_neg (string_ne_empty _ (by rw [ht]; simp)), hparse]
  dsimp only
  rw [ht] at hmatch ⊢
  rw [if_neg (by simp [reDay]), if_neg (by simp [reYear]), if_pos hmatch]

/-- Dispatch of `NextDate` into `nextMonthly` when the monthly pattern
matches. -/
theorem nextDate_monthly (now start : GoTime) (dS rep : String)
    (hmatch : reMonth (goTrimSpace rep).data = true)
    (hparse : parseDateDB (goTrimSpace dS) = some start) :
    NextDate now dS rep = nextMonthly (midnight now) start (goTrimSpace rep) := by
  obtain ⟨t, ht⟩ := reMonth_shape _ hmatch
  unfold NextDate
  dsimp only
  rw [if_neg (string_ne_empty _ (by rw [ht]; simp)), hparse]
  dsimp only
  rw [ht] at hmatch ⊢
  rw [if_neg (by simp [reDay]), if_neg (by simp [reYear]), if_neg (by simp [reWeek]),
    if_pos hmatch]

/-- An empty (trimmed) rule fails with `emptyRule` before anything else. -/
theorem nextDate_empty (now : GoTime) (dS rep : String) (h : goTrimSpace rep = "") :
    NextDate now dS rep = .error .emptyRule := by
  unfold NextDate
  dsimp only
  rw [if_pos h]

/-- A rule matching no pattern fails with `unsupportedFormat`. -/
theorem nextDate_unsupported (now start : GoTime) (dS rep : String)
    (hne : goTrimSpace rep ≠ "")
    (hparse : parseDateDB (goTrimSpace dS) = some start)
    (h1 : reDay (goTrimSpace rep).data = false)
    (h2 : reYear (goTrimSpace rep).data = false)
    (h3 : reWeek (goTrimSpace rep).data = false)
    (h4 : reMonth (goTrimSpace rep).data = false) :
    NextDate now dS rep = .error .unsupportedFormat := by
  unfold NextDate
  dsimp only
  rw [if_neg hne, hparse]
  dsimp only
  rw [if_neg (by simp [h1]), if_neg (by simp [h2]), if_neg (by simp [h3]),
    if_neg (by simp [h4])]

/-- The interval of "d 500" exceeds the 400-day cap. -/
theorem nextDate_d500 (now start : GoTime) (dS : String)
    (hparse : parseDateDB (goTrimSpace dS) = some start) :
    NextDate now dS "d 500" = .error .invalidDayInterval := by
  unfold NextDate
  dsimp only
  rw [if_neg (by decide), hparse]
  dsimp only
  rw [if_pos (by decide)]
  rfl

/-- `NextDate` is total: each call is exactly one date or exactly one error. -/
theorem nextDate_total (now : GoTime) (dS rep : String) :
    (∃ s, NextDate now dS rep = .ok s ∧ ∀ e, NextDate now dS rep ≠ .error e) ∨
    (∃ e, NextDate now dS rep = .error e ∧ ∀ s, NextDate now dS rep ≠ .ok s) := by
  cases hv : NextDate now dS rep with
  | ok s => exact Or.inl ⟨s, rfl, fun e he => Except.noConfusion he⟩
  | error e => exact Or.inr ⟨e, rfl, fun s hs => Except.noConfusion hs⟩

/- ### The list-parsing loops -/

theorem parseWeekdayList_ok : ∀ (L : List (List Char)) (ws : List Int),
    parseWeekdayList L = .ok ws → ∀ w ∈ ws, 1 ≤ w ∧ w ≤ 7 := by
  intro L
  induction L with
  | nil =>
    intro ws h w hw
    unfold parseWeekdayList at h
    injection h with h
    subst h
    simp at hw
  | cons a rest ih =>
    intro ws h w hw
    unfold parseWeekdayList at h
    split at h
    · exact absurd h (by simp)
    · rename_i v hga
      split at h
      · exact absurd h (by simp)
      · rename_i hrange
        split at h
        · exact absurd h (by simp)
        · rename_i l hpr
          injection h with h
          subst h
          rcases List.mem_cons.mp hw with rfl | hw'
          · push_neg at hrange
            omega
          · exact ih l hpr w hw'

theorem parseWeekdayList_cons_ne_nil (a : List Char) (rest : List (List Char))
    (ws : List Int) (h : parseWeekdayList (a :: rest) = .ok ws) : ws ≠ [] := by
  unfold parseWeekdayList at h
  split at h
  · exact absurd h (by simp)
  · split at h
    · exact absurd h (by simp)
    · split at h
      · exact absurd h (by simp)
      · injection h with h
        subst h
        simp

theorem parseMonthdayList_ok : ∀ (L : List (List Char)) (ds : List Int),
    parseMonthdayList L = .ok ds →
    ∀ d ∈ ds, d = lastDayOfMonth ∨ d = beforeLastDayOfMonth ∨ (1 ≤ d ∧ d ≤ 31) := by
  intro L
  induction L with
  | nil =>
    intro ds h d hd
    unfold parseMonthdayList at h
    injection h with h
    subst h
    simp at hd
  | cons a rest ih =>
    intro ds h d hd
    unfold parseMonthdayList at h
    split at h
    · exact absurd h (by simp)
    · rename_i v hga
      split at h
      · exact absurd h (by simp)
      · rename_i hrange
        split at h
        · exact absurd h (by simp)
        · rename_i l hpr
          injection h with h
          subst h
          rcases List.mem_cons.mp hd with rfl | hd'
          · push_neg at hrange
            unfold lastDayOfMonth beforeLastDayOfMonth at *
            by_cases hc : d = -1
            · exact Or.inl hc
            · by_cases hc2 : d = -2
              · exact Or.inr (Or.inl hc2)
              · exact Or.inr (Or.inr (by rcases hrange ⟨hc, hc2⟩ with ⟨h1, h2⟩; omega))
          · exact ih l hpr d hd'

theorem parseMonthList_ok : ∀ (L : List (List Char)) (ms : List Int),
    parseMonthList L = .ok ms → ∀ m ∈ ms, 1 ≤ m ∧ m ≤ 12 := by
  intro L
  induction L with
  | nil =>
    intro ms h m hm
    unfold parseMonthList at h
    injection h with h
    subst h
    simp at hm
  | cons a rest ih =>
    intro ms h m hm
    unfold parseMonthList at h
    split at h
    · exact absurd h (by simp)
    · rename_i v hga
      split at h
      · exact absurd h (by simp)
      · rename_i hrange
        split at h
        · exact absurd h (by simp)
        · rename_i l hpr
          injection h with h
          subst h
          rcases List.mem_cons.mp hm with rfl | hm'
          · push_neg at hrange
            omega
          · exact ih l hpr m hm'

/- ### sortUniqueInts -/

theorem mem_compactAdj : ∀ (l : List Int) (x : Int), x ∈ compactAdj l ↔ x ∈ l := by
  intro l
  induction l with
  | nil => intro x; simp [compactAdj]
  | cons a r ih =>
    intro x
    cases r with
    | nil => simp [compactAdj]
    | cons b rr =>
      unfold compactAdj
      by_cases hab : a = b
      · rw [if_pos hab]
        subst hab
        rw [ih x]
        simp [List.mem_cons]
      · rw [if_neg hab]
        simp [List.mem_cons, ih x]

theorem mem_sortUniqueInts (l : List Int) (x : Int) :
    x ∈ sortUniqueInts l ↔ x ∈ l := by
  unfold sortUniqueInts
  rw [mem_compactAdj]
  exact (List.perm_insertionSort (· ≤ ·) l).mem_iff

theorem sortUniqueInts_ne_nil (l : List Int) (h : l ≠ []) : sortUniqueInts l ≠ [] := by
  cases l with
  | nil => exact absurd rfl h
  | cons a r =>
    intro hc
    have ha : a ∈ sortUniqueInts (a :: r) := (mem_sortUniqueInts _ a).mpr (by simp)
    rw [hc] at ha
    simp at ha

theorem headI_mem (l : List Int) (h : l ≠ []) : l.headI ∈ l := by
  cases l with
  | nil => exact absurd rfl h
  | cons a r => simp

/- ### End-of-month arithmetic -/

/-- `time.Date(y, m+1, d, ...)` for a real month `m` counts `d` days past the
last day of month `m`. -/
theorem mkDate_month_end (y m d : Int) (h1 : 1 ≤ m) (h2 : m ≤ 12) :
    mkDate y (m + 1) d = toDays y m (daysIn y m) + d := by
  by_cases h12 : m = 12
  · subst h12
    have he : mkDate y (12 + 1) d = toDays (y + 1) 1 d := by
      unfold mkDate
      norm_num
    rw [he, show d = 1 + (d - 1) from by ring, toDays_add_d, year_boundary]
    have : daysIn y 12 = 31 := by simp [daysIn]
    rw [this]
    ring
  · rw [mkDate_eq_toDays _ _ _ (by omega) (by omega),
      show d = 1 + (d - 1) from by ring, toDays_add_d,
      month_boundary y m h1 (by omega)]
    ring

/-- `computeLastMonthDay` is the month's length. -/
theorem computeLastMonthDay_eq (y m : Int) (h1 : 1 ≤ m) (h2 : m ≤ 12) :
    computeLastMonthDay y m = daysIn y m := by
  unfold computeLastMonthDay
  rw [mkDate_month_end y m 0 h1 h2, add_zero]
  have hd := daysIn_bounds y m
  exact (fromDays_toDays y m (daysIn y m) h1 h2 (by omega) le_rfl).2.2

/-- Day `-1` of month `m+1` is the second-to-last day of month `m`. -/
theorem fdD_mkDate_neg1 (y m : Int) (h1 : 1 ≤ m) (h2 : m ≤ 12) :
    fdD (mkDate y (m + 1) (-1)) = daysIn y m - 1 := by
  rw [mkDate_month_end y m (-1) h1 h2]
  have hd := daysIn_bounds y m
  rw [show toDays y m (daysIn y m) + (-1) =
      toDays y m (daysIn y m - 1) from by
    rw [show daysIn y m - 1 = daysIn y m + (-1) from by ring, toDays_add_d]]
  exact (fromDays_toDays y m (daysIn y m - 1) h1 h2 (by omega) (by omega)).2.2

/-- The day spec `-1` resolves to the last day of the month. -/
theorem resolveDays_last (y m : Int) (h1 : 1 ≤ m) (h2 : m ≤ 12) :
    resolveDays [lastDayOfMonth] y m = [daysIn y m] := by
  unfold resolveDays lastDayOfMonth
  have hmap : ([(-1 : Int)].map (fun d =>
      if d < 0 then fdD (mkDate y (m + 1) (d + 1)) else d)) =
      [fdD (mkDate y (m + 1) 0)] := by
    simp
  rw [hmap]
  have : fdD (mkDate y (m + 1) 0) = daysIn y m := by
    rw [mkDate_month_end y m 0 h1 h2, add_zero]
    have hd := daysIn_bounds y m
    exact (fromDays_toDays y m (daysIn y m) h1 h2 (by omega) le_rfl).2.2
  rw [this]
  rfl

/-- The day spec `-2` resolves to the second-to-last day of the month. -/
theorem resolveDays_secondLast (y m : Int) (h1 : 1 ≤ m) (h2 : m ≤ 12) :
    resolveDays [beforeLastDayOfMonth] y m = [daysIn y m - 1] := by
  unfold resolveDays beforeLastDayOfMonth
  have hmap : ([(-2 : Int)].map (fun d =>
      if d < 0 then fdD (mkDate y (m + 1) (d + 1)) else d)) =
      [fdD (mkDate y (m + 1) (-1))] := by
    norm_num
  rw [hmap, fdD_mkDate_neg1 y m h1 h2]
  rfl

/-- Membership in `resolveDays` comes from a requested day spec. -/
theorem resolveDays_mem (l : List Int) (y m x : Int) (hx : x ∈ resolveDays l y m) :
    ∃ d ∈ l, x = if d < 0 then fdD (mkDate y (m + 1) (d + 1)) else d := by
  unfold resolveDays at hx
  rw [mem_sortUniqueInts] at hx
  obtain ⟨d, hd, hfd⟩ := List.mem_map.mp hx
  exact ⟨d, hd, hfd.symm⟩

/-- Every resolved day of a validated day-spec list is in 1..31. -/
theorem resolveDays_bounds (l : List Int) (y m x : Int)
    (hl : ∀ d ∈ l, d = lastDayOfMonth ∨ d = beforeLastDayOfMonth ∨ (1 ≤ d ∧ d ≤ 31))
    (hx : x ∈ resolveDays l y m) : 1 ≤ x ∧ x ≤ 31 := by
  obtain ⟨d, hd, hxd⟩ := resolveDays_mem l y m x hx
  rcases hl d hd with h' | h' | h'
  · subst h'
    rw [if_pos (by decide)] at hxd
    have := fdD_bounds (mkDate y (m + 1) (lastDayOfMonth + 1))
    omega
  · subst h'
    rw [if_pos (by decide)] at hxd
    have := fdD_bounds (mkDate y (m + 1) (beforeLastDayOfMonth + 1))
    omega
  · rw [if_neg (by omega)] at hxd
    omega


theorem findWeekOffset_cases (c : Int) : ∀ l : List Int,
    findWeekOffset c l = 0 ∨ ∃ wd ∈ l, c < wd ∧ findWeekOffset c l = wd - c := by
  intro l
  induction l with
  | nil => exact Or.inl rfl
  | cons a r ih =>
    by_cases hca : c < a
    · refine Or.inr ⟨a, by simp, hca, ?_⟩
      unfold findWeekOffset
      rw [if_pos hca]
    · have he : findWeekOffset c (a :: r) = findWeekOffset c r := by
        show (if c < a then a - c else findWeekOffset c r) = findWeekOffset c r
        rw [if_neg hca]
      rcases ih with h | ⟨wd, hwd, h1, h2⟩
      · exact Or.inl (he.trans h)
      · exact Or.inr ⟨wd, List.mem_cons_of_mem _ hwd, h1, he.trans h2⟩

/-- The arithmetic core of `nextWeekly`: the chosen increment is at least one
day, and the landing weekday (ISO form, Sunday as 7) is a listed weekday. -/
theorem weekly_core (b : Int) (ws' : List Int) (hne : ws' ≠ [])
    (hb : ∀ w ∈ ws', 1 ≤ w ∧ w ≤ 7) (cur off D : Int)
    (hcur : cur = if (b + 4) % 7 = 0 then 7 else (b + 4) % 7)
    (hoff : off = findWeekOffset cur ws')
    (hD : D = if off = 0 then 7 - cur + ws'.headI else off) :
    1 ≤ D ∧ (if (b + D + 4) % 7 = 0 then 7 else (b + D + 4) % 7) ∈ ws' := by
  have hcc : ((b + 4) % 7 = 0 ∧ cur = 7) ∨ ((b + 4) % 7 ≠ 0 ∧ cur = (b + 4) % 7) := by
    rw [hcur]
    by_cases h0 : (b + 4) % 7 = 0
    · rw [if_pos h0]
      exact Or.inl ⟨h0, rfl⟩
    · rw [if_neg h0]
      exact Or.inr ⟨h0, rfl⟩
  have hcur17 : 1 ≤ cur ∧ cur ≤ 7 := by rcases hcc with ⟨h0, hce⟩ | ⟨h0, hce⟩ <;> omega
  rcases findWeekOffset_cases cur ws' with hz | ⟨wd, hwd, hlt, heq⟩
  · have hoff0 : off = 0 := by rw [hoff, hz]
    have hh : ws'.headI ∈ ws' := headI_mem ws' hne
    have hhb := hb _ hh
    have hDv : D = 7 - cur + ws'.headI := by rw [hD, if_pos hoff0]
    refine ⟨by omega, ?_⟩
    have hiso : (if (b + D + 4) % 7 = 0 then 7 else (b + D + 4) % 7) = ws'.headI := by
      split <;> rcases hcc with ⟨h0, hce⟩ | ⟨h0, hce⟩ <;> omega
    rw [hiso]
    exact hh
  · have hoffv : off = wd - cur := by rw [hoff, heq]
    have hwdb := hb _ hwd
    have hDv : D = wd - cur := by rw [hD, if_neg (by omega), hoffv]
    refine ⟨by omega, ?_⟩
    have hiso : (if (b + D + 4) % 7 = 0 then 7 else (b + D + 4) % 7) = wd := by
      split <;> rcases hcc with ⟨h0, hce⟩ | ⟨h0, hce⟩ <;> omega
    rw [hiso]
    exact hwd

/-- The base time is never before `now`, and stays a midnight. -/
theorem computeBaseTime_day_ge (now s : GoTime) (hnsec : now.sec = 0)
    (hssec : s.sec = 0) :
    now.day ≤ (computeBaseTime now s).day ∧ (computeBaseTime now s).sec = 0 := by
  rcases computeBaseTime_cases now s with ⟨ha, he⟩ | ⟨ha, he⟩
  · rw [he]
    rw [afterNow_iff _ _ hnsec hssec] at ha
    exact ⟨le_of_lt ha, hssec⟩
  · rw [he]
    exact ⟨le_rfl, hnsec⟩

/-- The day increment `nextWeekly` computes from base time `b` is at least one
day and lands on a listed ISO weekday. -/
theorem nextWeekly_result (b : GoTime) (ws' : List Int) (hne' : ws' ≠ [])
    (hb : ∀ w ∈ ws', 1 ≤ w ∧ w ≤ 7) :
    1 ≤ (if findWeekOffset (if goWeekday b = 0 then sundayNum else goWeekday b) ws' = 0
        then 7 - (if goWeekday b = 0 then sundayNum else goWeekday b) + ws'.headI
        else findWeekOffset (if goWeekday b = 0 then sundayNum else goWeekday b) ws') ∧
    (if goWeekday (addDate b 0 0
        (if findWeekOffset (if goWeekday b = 0 then sundayNum else goWeekday b) ws' = 0
        then 7 - (if goWeekday b = 0 then sundayNum else goWeekday b) + ws'.headI
        else findWeekOffset (if goWeekday b = 0 then sundayNum else goWeekday b) ws')) = 0
      then sundayNum
      else goWeekday (addDate b 0 0
        (if findWeekOffset (if goWeekday b = 0 then sundayNum else goWeekday b) ws' = 0
        then 7 - (if goWeekday b = 0 then sundayNum else goWeekday b) + ws'.headI
        else findWeekOffset (if goWeekday b = 0 then sundayNum else goWeekday b) ws'))) ∈
      ws' := by
  have hcore := weekly_core b.day ws' hne' hb
    (if goWeekday b = 0 then sundayNum else goWeekday b)
    (findWeekOffset (if goWeekday b = 0 then sundayNum else goWeekday b) ws')
    (if findWeekOffset (if goWeekday b = 0 then sundayNum else goWeekday b) ws' = 0
        then 7 - (if goWeekday b = 0 then sundayNum else goWeekday b) + ws'.headI
        else findWeekOffset (if goWeekday b = 0 then sundayNum else goWeekday b) ws')
    rfl rfl rfl
  refine ⟨hcore.1, ?_⟩
  unfold goWeekday sundayNum at hcore ⊢
  rw [(addDate_days b _).1]
  exact hcore.2

/-- `nextWeekly` on a parsed weekday list: the result is a formatted date
strictly after the base time whose ISO weekday is one of the requested ones. -/
theorem nextWeekly_ok (now start : GoTime) (rep : String) (ws : List Int)
    (hws : parseWeekdayList (splitChar ','
      ((splitChar ' ' rep.data).getD 1 [])) = .ok ws)
    (hne : ws ≠ []) (hnsec : now.sec = 0) (hssec : start.sec = 0) :
    ∃ r : GoTime, nextWeekly now start rep = .ok (formatDate r) ∧
      (if goWeekday r = 0 then sundayNum else goWeekday r) ∈ ws ∧
      (computeBaseTime now start).day < r.day ∧ now.day < r.day ∧ r.sec = 0 := by
  have hbds : ∀ w ∈ sortUniqueInts ws, 1 ≤ w ∧ w ≤ 7 := fun w hw =>
    parseWeekdayList_ok _ ws hws w ((mem_sortUniqueInts ws w).mp hw)
  have hne' := sortUniqueInts_ne_nil ws hne
  have hbase := computeBaseTime_day_ge now start hnsec hssec
  have hres := nextWeekly_result (computeBaseTime now start) (sortUniqueInts ws) hne' hbds
  unfold nextWeekly
  dsimp only
  rw [hws]
  dsimp only
  refine ⟨_, rfl, ?_, ?_, ?_, ?_⟩
  · rw [← mem_sortUniqueInts]
    exact hres.2
  · rw [(addDate_days _ _).1]
    have h1 := hres.1
    omega
  · rw [(addDate_days _ _).1]
    have h1 := hres.1
    omega
  · rw [(addDate_days _ _).2]
    exact hbase.2

/- ### Yearly loop characterization -/

/-- One pass of the `nextYearly` loop body: `AddDate(1, 0, 0)`. -/
def addYear (t : GoTime) : GoTime := addDate t 1 0 0

/-- One pass of the `nextDaily` loop body: `AddDate(0, 0, days)`. -/
def addDays (n : Int) (t : GoTime) : GoTime := addDate t 0 0 n

theorem addDays_iter (n : Int) : ∀ (k : Nat) (s : GoTime),
    ((addDays n)^[k] s).day = s.day + k * n ∧ ((addDays n)^[k] s).sec = s.sec := by
  intro k
  induction k with
  | zero => intro s; simp
  | succ k ih =>
    intro s
    rw [Function.iterate_succ_apply]
    have hstep := addDate_days s n
    obtain ⟨hd, hs⟩ := ih (addDays n s)
    unfold addDays at hd hs ⊢
    rw [hd, hs, hstep.1, hstep.2]
    constructor
    · push_cast
      ring
    · rfl

theorem addYear_iter_sec : ∀ (k : Nat) (s : GoTime), (addYear^[k] s).sec = s.sec := by
  intro k
  induction k with
  | zero => intro s; simp
  | succ k ih =>
    intro s
    rw [Function.iterate_succ_apply]
    rw [ih (addYear s)]
    rfl

theorem addYear_iter_day_ge : ∀ (k : Nat) (s : GoTime),
    s.day + 365 * k ≤ (addYear^[k] s).day := by
  intro k
  induction k with
  | zero => intro s; simp
  | succ k ih =>
    intro s
    rw [Function.iterate_succ_apply]
    have hstep : s.day + 365 ≤ (addYear s).day := addDate_year_ge s
    have := ih (addYear s)
    push_cast
    push_cast at this
    omega

theorem afterNow_false_le (now x : GoTime) (h : afterNow now x = false) :
    x.day ≤ now.day := by
  unfold afterNow goBefore at h
  simp only [Bool.or_eq_false_iff, decide_eq_false_iff_not] at h
  have := h.1
  omega

/-- The yearly loop is the least number `k ≥ 1` of `AddDate(1, 0, 0)` steps
that passes `now`. -/
theorem yearlyLoop_spec (now : GoTime) :
    ∀ (fuel : Nat) (s : GoTime), ((now.day + 1) - s.day).toNat = fuel →
      ∃ k : Nat, 1 ≤ k ∧ yearlyLoop now s = addYear^[k] s ∧
        afterNow now (addYear^[k] s) = true ∧
        ∀ j : Nat, 1 ≤ j → j < k → afterNow now (addYear^[j] s) = false := by
  intro fuel
  induction fuel using Nat.strong_induction_on with
  | _ fuel ih =>
    intro s hfuel
    rw [yearlyLoop_unfold]
    by_cases hc : afterNow now (addDate s 1 0 0) = true
    · rw [if_pos hc]
      refine ⟨1, le_rfl, ?_, ?_, ?_⟩
      · rw [Function.iterate_one]
        rfl
      · rw [Function.iterate_one]
        exact hc
      · intro j h1 hj
        omega
    · rw [if_neg hc]
      have hge := addDate_year_ge s
      have hle : (addDate s 1 0 0).day ≤ now.day :=
        afterNow_false_le now _ (Bool.not_eq_true _ ▸ hc)
      obtain ⟨k, hk1, hkeq, hkaft, hkmin⟩ :=
        ih (((now.day + 1) - (addDate s 1 0 0).day).toNat) (by omega) (addDate s 1 0 0) rfl
      refine ⟨k + 1, by omega, ?_, ?_, ?_⟩
      · rw [Function.iterate_succ_apply]
        exact hkeq
      · rw [Function.iterate_succ_apply]
        exact hkaft
      · intro j hj1 hjk1
        cases j with
        | zero => omega
        | succ j' =>
          rw [Function.iterate_succ_apply]
          rcases Nat.eq_zero_or_pos j' with h0 | hpos
          · subst h0
            rw [Function.iterate_zero_apply]
            exact Bool.not_eq_true _ ▸ hc
          · exact hkmin j' hpos (by omega)

/-- The yearly step count is bounded by the day gap divided by 365. -/
theorem yearly_count_le (now s : GoTime) (k : Nat) (hk1 : 1 ≤ k)
    (hmin : ∀ j : Nat, 1 ≤ j → j < k → afterNow now (addYear^[j] s) = false) :
    (k : Int) ≤ max 1 ((now.day - s.day) / 365 + 1) := by
  by_contra hcon
  push_neg at hcon
  rcases max_cases 1 ((now.day - s.day) / 365 + 1) with ⟨hMe, hMge⟩ | ⟨hMe, hMge⟩ <;>
    rw [hMe] at hcon
  · -- max is 1: take j = 1
    have hfalse := hmin 1 le_rfl (by exact_mod_cast hcon)
    have hday := addYear_iter_day_ge 1 s
    have hle := afterNow_false_le now _ hfalse
    push_cast at hday
    omega
  · -- max is (gap/365) + 1: take j with (j : Int) = that
    have hpos : (0 : Int) ≤ (now.day - s.day) / 365 + 1 := by omega
    refine absurd (hmin ((now.day - s.day) / 365 + 1).toNat ?_ ?_) ?_
    · omega
    · omega
    · intro hfalse
      have hday := addYear_iter_day_ge ((now.day - s.day) / 365 + 1).toNat s
      have hle := afterNow_false_le now _ hfalse
      have hcast : ((((now.day - s.day) / 365 + 1).toNat : Int)) =
          (now.day - s.day) / 365 + 1 := Int.toNat_of_nonneg hpos
      rw [hcast] at hday
      omega

/-- February 29 starts normalize: the first yearly step lands on March 1, and
every later step stays on March 1. -/
theorem addYear_feb29 (y : Int) (hl : isLeap y = true) :
    ∀ k : Nat, 1 ≤ k →
      addYear^[k] ⟨toDays y 2 29, 0⟩ = ⟨toDays (y + k) 3 1, 0⟩ := by
  have hdays29 : daysIn y 2 = 29 := by
    unfold daysIn
    rw [if_pos rfl, if_pos hl]
  have hstep1 : addYear ⟨toDays y 2 29, 0⟩ = ⟨toDays (y + 1) 3 1, 0⟩ := by
    have hfd := fromDays_toDays y 2 29 (by omega) (by omega) (by omega) (by omega)
    show ⟨mkDate (goYear ⟨toDays y 2 29, 0⟩ + 1) (goMonth ⟨toDays y 2 29, 0⟩ + 0)
      (goDay ⟨toDays y 2 29, 0⟩ + 0), 0⟩ = (⟨toDays (y + 1) 3 1, 0⟩ : GoTime)
    unfold goYear goMonth goDay
    rw [hfd.1, hfd.2.1, hfd.2.2, add_zero, add_zero,
      mkDate_eq_toDays _ _ _ (by omega) (by omega), feb29_norm y hl]
  have hdays3 : ∀ y' : Int, daysIn y' 3 = 31 := by
    intro y'
    unfold daysIn
    norm_num
  have hmar : ∀ y' : Int, addYear ⟨toDays y' 3 1, 0⟩ = ⟨toDays (y' + 1) 3 1, 0⟩ := by
    intro y'
    have hfd := fromDays_toDays y' 3 1 (by omega) (by omega) (by omega)
      (by rw [hdays3 y']; omega)
    show ⟨mkDate (goYear ⟨toDays y' 3 1, 0⟩ + 1) (goMonth ⟨toDays y' 3 1, 0⟩ + 0)
      (goDay ⟨toDays y' 3 1, 0⟩ + 0), 0⟩ = (⟨toDays (y' + 1) 3 1, 0⟩ : GoTime)
    unfold goYear goMonth goDay
    rw [hfd.1, hfd.2.1, hfd.2.2, add_zero, add_zero,
      mkDate_eq_toDays _ _ _ (by omega) (by omega)]
  intro k
  induction k with
  | zero => omega
  | succ k ih =>
    intro _
    rcases Nat.eq_zero_or_pos k with h0 | hpos
    · subst h0
      rw [Function.iterate_one]
      push_cast
      exact hstep1
    · rw [Function.iterate_succ_apply', ih hpos, hmar (y + k)]
      have : (y : Int) + k + 1 = y + (k + 1 : Nat) := by push_cast; ring
      rw [this]

/- ### Monthly phases -/

/-- Every `GoTime` day number decomposes as a valid civil date. -/
theorem goTime_civil (t : GoTime) :
    t.day = toDays (goYear t) (goMonth t) (goDay t) ∧
    1 ≤ goMonth t ∧ goMonth t ≤ 12 ∧ 1 ≤ goDay t ∧
    goDay t ≤ daysIn (goYear t) (goMonth t) := by
  unfold goYear goMonth goDay
  exact ⟨(toDays_fromDays t.day).symm, (fdM_bounds t.day).1, (fdM_bounds t.day).2,
    (fdD_bounds t.day).1, fromDays_valid t.day⟩

theorem phase1Days_some (base : GoTime) (cy cm cd m : Int) :
    ∀ (days : List Int) (t : GoTime),
      phase1Days base cy cm cd m days = some t →
      ∃ md ∈ days, md ≤ computeLastMonthDay cy m ∧
        ((cm = m ∧ cd < md ∧ t = addDate base 0 0 (md - cd)) ∨
         (¬cm = m ∧ t = goDate cy m md)) := by
  intro days
  induction days with
  | nil => intro t h; exact absurd h (by simp [phase1Days])
  | cons md rest ih =>
    intro t h
    unfold phase1Days at h
    dsimp only at h
    split at h
    · exact absurd h (by simp)
    · rename_i hle
      split at h
      · rename_i hcm
        split at h
        · obtain ⟨md', hmem, hrest⟩ := ih t h
          exact ⟨md', List.mem_cons_of_mem _ hmem, hrest⟩
        · rename_i hmd
          injection h with h
          exact ⟨md, List.mem_cons_self _ _, by omega,
            Or.inl ⟨hcm, by omega, h.symm⟩⟩
      · rename_i hcm
        injection h with h
        exact ⟨md, List.mem_cons_self _ _, by omega, Or.inr ⟨hcm, h.symm⟩⟩

theorem phase1_some (base : GoTime) (cy cm cd : Int) (mdInt : List Int) :
    ∀ (ms : List Int) (t : GoTime), phase1 base cy cm cd mdInt ms = some t →
      ∃ m ∈ ms, cm ≤ m ∧
        phase1Days base cy cm cd m (resolveDays mdInt cy m) = some t := by
  intro ms
  induction ms with
  | nil => intro t h; exact absurd h (by simp [phase1])
  | cons m rest ih =>
    intro t h
    unfold phase1 at h
    split at h
    · rename_i hcm
      split at h
      · rename_i t' heq
        injection h with h
        subst h
        exact ⟨m, List.mem_cons_self _ _, hcm, heq⟩
      · obtain ⟨m', hm', hrest⟩ := ih t h
        exact ⟨m', List.mem_cons_of_mem _ hm', hrest⟩
    · obtain ⟨m', hm', hrest⟩ := ih t h
      exact ⟨m', List.mem_cons_of_mem _ hm', hrest⟩

theorem phase2Days_some (ny m : Int) (days : List Int) (t : GoTime)
    (h : phase2Days ny m days = some t) :
    ∃ md ∈ days, md ≤ computeLastMonthDay ny m ∧ t = goDate ny m md := by
  cases days with
  | nil => exact absurd h (by simp [phase2Days])
  | cons md rest =>
    unfold phase2Days at h
    dsimp only at h
    split at h
    · exact absurd h (by simp)
    · rename_i hle
      injection h with h
      exact ⟨md, List.mem_cons_self _ _, by omega, h.symm⟩

theorem phase2_some (ny : Int) (mdInt : List Int) :
    ∀ (ms : List Int) (t : GoTime), phase2 ny mdInt ms = some t →
      ∃ m ∈ ms, phase2Days ny m (resolveDays mdInt ny m) = some t := by
  intro ms
  induction ms with
  | nil => intro t h; exact absurd h (by simp [phase2])
  | cons m rest ih =>
    intro t h
    unfold phase2 at h
    split at h
    · rename_i t' heq
      injection h with h
      subst h
      exact ⟨m, List.mem_cons_self _ _, heq⟩
    · obtain ⟨m', hm', hrest⟩ := ih t h
      exact ⟨m', List.mem_cons_of_mem _ hm', hrest⟩

theorem phase1Days_none (base : GoTime) (cy cm cd m : Int) (days : List Int)
    (H : ∀ md ∈ days, computeLastMonthDay cy m < md) :
    phase1Days base cy cm cd m days = none := by
  cases days with
  | nil => rfl
  | cons md rest =>
    unfold phase1Days
    dsimp only
    rw [if_pos (H md (List.mem_cons_self _ _))]

theorem phase1_none (base : GoTime) (cy cm cd : Int) (mdInt : List Int) :
    ∀ ms : List Int,
      (∀ m ∈ ms, ∀ md ∈ resolveDays mdInt cy m, computeLastMonthDay cy m < md) →
      phase1 base cy cm cd mdInt ms = none := by
  intro ms
  induction ms with
  | nil => intro _; rfl
  | cons m rest ih =>
    intro H
    unfold phase1
    by_cases hcm : cm ≤ m
    · rw [if_pos hcm,
        phase1Days_none base cy cm cd m _ (H m (List.mem_cons_self _ _))]
      exact ih (fun m' hm' => H m' (List.mem_cons_of_mem _ hm'))
    · rw [if_neg hcm]
      exact ih (fun m' hm' => H m' (List.mem_cons_of_mem _ hm'))

theorem phase2Days_none (ny m : Int) (days : List Int)
    (H : ∀ md ∈ days, computeLastMonthDay ny m < md) :
    phase2Days ny m days = none := by
  cases days with
  | nil => rfl
  | cons md rest =>
    unfold phase2Days
    dsimp only
    rw [if_pos (H md (List.mem_cons_self _ _))]

theorem phase2_none (ny : Int) (mdInt : List Int) :
    ∀ ms : List Int,
      (∀ m ∈ ms, ∀ md ∈ resolveDays mdInt ny m, computeLastMonthDay ny m < md) →
      phase2 ny mdInt ms = none := by
  intro ms
  induction ms with
  | nil => intro _; rfl
  | cons m rest ih =>
    intro H
    unfold phase2
    rw [phase2Days_none ny m _ (H m (List.mem_cons_self _ _))]
    exact ih (fun m' hm' => H m' (List.mem_cons_of_mem _ hm'))

/-- The months `nextMonthly` scans are always in 1..12. -/
theorem monthsInt_mem_bounds (rep : String) (msRaw monthsInt : List Int)
    (hms : (if (splitChar ' ' rep.data).length = expectedPartsWithMonths
        then (parseMonthList (splitChar ','
          ((splitChar ' ' rep.data).getD 2 []))).map sortUniqueInts
        else .ok []) = .ok msRaw)
    (hmonths : monthsInt = if msRaw = [] then allMonths else msRaw) :
    ∀ m ∈ monthsInt, 1 ≤ m ∧ m ≤ 12 := by
  have hall : ∀ m ∈ allMonths, 1 ≤ m ∧ m ≤ 12 := by decide
  have hraw : ∀ m ∈ msRaw, 1 ≤ m ∧ m ≤ 12 := by
    split at hms
    · cases hpm : parseMonthList (splitChar ',' ((splitChar ' ' rep.data).getD 2 [])) with
      | error e => rw [hpm] at hms; exact absurd hms (by simp [Except.map])
      | ok raw =>
        rw [hpm] at hms
        have : msRaw = sortUniqueInts raw := by
          have := hms
          simp [Except.map] at this
          exact this.symm
        subst this
        intro m hm
        exact parseMonthList_ok _ raw hpm m ((mem_sortUniqueInts raw m).mp hm)
    · injection hms with h
      subst h
      intro m hm
      simp at hm
  rw [hmonths]
  split
  · exact hall
  · exact hraw

/-- A successful `nextMonthly`: the date is a valid civil date strictly after
`now` whose month is a scanned month and whose day is a resolved day spec for
that year and month. -/
theorem nextMonthly_ok (now start : GoTime) (rep : String)
    (mdRaw msRaw monthsInt : List Int) (res : String)
    (hmd : parseMonthdayList (splitChar ','
      ((splitChar ' ' rep.data).getD 1 [])) = .ok mdRaw)
    (hms : (if (splitChar ' ' rep.data).length = expectedPartsWithMonths
        then (parseMonthList (splitChar ','
          ((splitChar ' ' rep.data).getD 2 []))).map sortUniqueInts
        else .ok []) = .ok msRaw)
    (hmonths : monthsInt = if msRaw = [] then allMonths else msRaw)
    (hnsec : now.sec = 0) (hssec : start.sec = 0)
    (hok : nextMonthly now start rep = .ok res) :
    ∃ y m md, res = formatDate ⟨toDays y m md, 0⟩ ∧ m ∈ monthsInt ∧
      md ∈ resolveDays (sortUniqueInts mdRaw) y m ∧ 1 ≤ m ∧ m ≤ 12 ∧
      1 ≤ md ∧ md ≤ daysIn y m ∧ now.day < toDays y m md := by
  have hmono := monthsInt_mem_bounds rep msRaw monthsInt hms hmonths
  have hmdb : ∀ d ∈ sortUniqueInts mdRaw,
      d = lastDayOfMonth ∨ d = beforeLastDayOfMonth ∨ (1 ≤ d ∧ d ≤ 31) :=
    fun d hd => parseMonthdayList_ok _ mdRaw hmd d ((mem_sortUniqueInts mdRaw d).mp hd)
  have hbase := computeBaseTime_day_ge now start hnsec hssec
  have hciv := goTime_civil (computeBaseTime now start)
  unfold nextMonthly at hok
  dsimp only at hok
  rw [hmd] at hok
  dsimp only at hok
  rw [hms] at hok
  dsimp only at hok
  rw [← hmonths] at hok
  split at hok
  · -- phase 1 found a date
    rename_i t heq1
    injection hok with hok
    subst hok
    obtain ⟨m, hm_mem, hcmle, hdays⟩ :=
      phase1_some (computeBaseTime now start) _ _ _ _ monthsInt t heq1
    obtain ⟨md, hmd_mem, hle, hcases⟩ := phase1Days_some _ _ _ _ _ _ t hdays
    have hmb := hmono m hm_mem
    have hmdbd := resolveDays_bounds _ _ _ _ hmdb hmd_mem
    rw [computeLastMonthDay_eq _ _ hmb.1 hmb.2] at hle
    rcases hcases with ⟨hcm, hcd, ht⟩ | ⟨hcm, ht⟩
    · -- same month: md - currentMonthDay days ahead of the base time
      refine ⟨goYear (computeBaseTime now start), m, md, ?_, hm_mem, hmd_mem,
        hmb.1, hmb.2, hmdbd.1, hle, ?_⟩
      · have hday : t.day = toDays (goYear (computeBaseTime now start)) m md := by
          rw [ht, (addDate_days _ _).1]
          have h1 : goDay (computeBaseTime now start) +
              (md - goDay (computeBaseTime now start)) = md := by ring
          have h2 := toDays_add_d (goYear (computeBaseTime now start))
            (goMonth (computeBaseTime now start)) (goDay (computeBaseTime now start))
            (md - goDay (computeBaseTime now start))
          rw [h1] at h2
          rw [hciv.1, ← h2, hcm]
        have hsec : t.sec = 0 := by
          rw [ht, (addDate_days _ _).2]
          exact hbase.2
        rw [GoTime.ext' t ⟨toDays (goYear (computeBaseTime now start)) m md, 0⟩
          hday hsec]
      · have h1 : goDay (computeBaseTime now start) +
            (md - goDay (computeBaseTime now start)) = md := by ring
        have h2 := toDays_add_d (goYear (computeBaseTime now start))
          (goMonth (computeBaseTime now start)) (goDay (computeBaseTime now start))
          (md - goDay (computeBaseTime now start))
        rw [h1, hcm] at h2
        have h3 := hciv.1
        rw [hcm] at h3
        have h4 := hbase.1
        omega
    · -- later month of the base year
      have hcmlt : goMonth (computeBaseTime now start) < m := by
        rcases lt_or_eq_of_le hcmle with h | h
        · exact h
        · exact absurd h hcm
      refine ⟨goYear (computeBaseTime now start), m, md, ?_, hm_mem, hmd_mem,
        hmb.1, hmb.2, hmdbd.1, hle, ?_⟩
      · rw [ht]
        unfold goDate
        rw [mkDate_eq_toDays _ _ _ hmb.1 hmb.2]
      · have hlt := toDays_lt_of_lex (goYear (computeBaseTime now start))
          (goMonth (computeBaseTime now start)) (goDay (computeBaseTime now start))
          (goYear (computeBaseTime now start)) m md
          hciv.2.1 hciv.2.2.1 hciv.2.2.2.1 hciv.2.2.2.2 hmb.1 hmb.2 hmdbd.1
          (Or.inr ⟨rfl, hcmlt⟩)
        have h3 := hciv.1
        have h4 := hbase.1
        omega
  · -- phase 1 exhausted; phase 2
    split at hok
    · rename_i t heq2
      injection hok with hok
      subst hok
      obtain ⟨m, hm_mem, hdays⟩ := phase2_some _ _ monthsInt t heq2
      obtain ⟨md, hmd_mem, hle, ht⟩ := phase2Days_some _ _ _ t hdays
      have hmb := hmono m hm_mem
      have hmdbd := resolveDays_bounds _ _ _ _ hmdb hmd_mem
      rw [computeLastMonthDay_eq _ _ hmb.1 hmb.2] at hle
      refine ⟨goYear (computeBaseTime now start) + 1, m, md, ?_, hm_mem, hmd_mem,
        hmb.1, hmb.2, hmdbd.1, hle, ?_⟩
      · rw [ht]
        unfold goDate
        rw [mkDate_eq_toDays _ _ _ hmb.1 hmb.2]
      · have hlt := toDays_lt_of_lex (goYear (computeBaseTime now start))
          (goMonth (computeBaseTime now start)) (goDay (computeBaseTime now start))
          (goYear (computeBaseTime now start) + 1) m md
          hciv.2.1 hciv.2.2.1 hciv.2.2.2.1 hciv.2.2.2.2 hmb.1 hmb.2 hmdbd.1
          (Or.inl (by omega))
        have h3 := hciv.1
        have h4 := hbase.1
        omega
    · exact absurd hok (by simp)

/-- When every resolved day overflows every scanned month in every year,
`nextMonthly` fails with `noMatchingDay`. -/
theorem nextMonthly_nomatch (now start : GoTime) (rep : String)
    (mdRaw msRaw monthsInt : List Int)
    (hmd : parseMonthdayList (splitChar ','
      ((splitChar ' ' rep.data).getD 1 [])) = .ok mdRaw)
    (hms : (if (splitChar ' ' rep.data).length = expectedPartsWithMonths
        then (parseMonthList (splitChar ','
          ((splitChar ' ' rep.data).getD 2 []))).map sortUniqueInts
        else .ok []) = .ok msRaw)
    (hmonths : monthsInt = if msRaw = [] then allMonths else msRaw)
    (H : ∀ m ∈ monthsInt, ∀ y : Int, ∀ md ∈ resolveDays (sortUniqueInts mdRaw) y m,
      computeLastMonthDay y m < md) :
    nextMonthly now start rep = .error .noMatchingDay := by
  unfold nextMonthly
  dsimp only
  rw [hmd]
  dsimp only
  rw [hms]
  dsimp only
  rw [← hmonths]
  rw [phase1_none (computeBaseTime now start) _ _ _ _ monthsInt
    (fun m hm md hmd' => H m hm _ md hmd')]
  dsimp only
  rw [phase2_none _ _ monthsInt (fun m hm md hmd' => H m hm _ md hmd')]

/- ### Concrete evaluations -/

/-- Rule "d 3" from 2024-03-01 against now 2024-03-05 gives 2024-03-07. -/
theorem nextDate_d3_concrete :
    NextDate ⟨toDays 2024 3 5, 0⟩ "20240301" "d 3" = .ok "20240307" := by
  have h1 : NextDate ⟨toDays 2024 3 5, 0⟩ "20240301" "d 3" =
      nextDaily ⟨toDays 2024 3 5, 0⟩ ⟨toDays 2024 3 1, 0⟩ "d 3" := rfl
  rw [h1, nextDaily_spec ⟨toDays 2024 3 5, 0⟩ ⟨toDays 2024 3 1, 0⟩ "d 3" 3 rfl
    (by norm_num) (by norm_num) rfl rfl]
  rfl

/-- The yearly loop from 2024-02-29 against now 2027-12-31 stops at
2028-03-01: the very first `AddDate(1, 0, 0)` normalizes Feb 29 to Mar 1. -/
theorem yearlyLoop_feb29_concrete :
    yearlyLoop ⟨toDays 2027 12 31, 0⟩ ⟨toDays 2024 2 29, 0⟩ = ⟨toDays 2028 3 1, 0⟩ := by
  rw [yearlyLoop_unfold, if_neg (by decide), yearlyLoop_unfold, if_neg (by decide),
    yearlyLoop_unfold, if_neg (by decide), yearlyLoop_unfold, if_pos (by decide)]
  decide

/-- Rule "y" from 2024-02-29 against now 2027-12-31 gives 2028-03-01 (not
2028-02-29, although 2028 is a leap year). -/
theorem nextDate_feb29_concrete :
    NextDate ⟨toDays 2027 12 31, 0⟩ "20240229" "y" = .ok "20280301" := by
  have h1 : NextDate ⟨toDays 2027 12 31, 0⟩ "20240229" "y" =
      .ok (formatDate (yearlyLoop ⟨toDays 2027 12 31, 0⟩ ⟨toDays 2024 2 29, 0⟩)) := rfl
  rw [h1, yearlyLoop_feb29_concrete]
  rfl

/-- Rule "m -1" from 2024-01-01 against now 2024-02-15 gives 2024-02-29, the
last day of a leap-year February. -/
theorem nextDate_mlast_concrete :
    NextDate ⟨toDays 2024 2 15, 0⟩ "20240101" "m -1" = .ok "20240229" := rfl

/- ### Out-of-range numeric fields (universal clauses) -/

theorem splitChar_cons_eq (sep a : Char) (r : List Char) :
    splitChar sep (a :: r) = if a = sep then [] :: splitChar sep r
      else match splitChar sep r with
        | [] => [[a]]
        | t :: ts => (a :: t) :: ts := rfl

theorem splitChar_sep_cons (sep c : Char) (rest : List Char) (hc : ¬c = sep) :
    splitChar sep (c :: sep :: rest) = [c] :: splitChar sep rest := by
  rw [splitChar_cons_eq sep c (sep :: rest), if_neg hc,
    splitChar_cons_eq sep sep rest, if_pos rfl]

theorem splitChar_no_sep (sep : Char) : ∀ l : List Char, (∀ c ∈ l, ¬c = sep) →
    splitChar sep l = [l] := by
  intro l
  induction l with
  | nil => intro _; rfl
  | cons a r ih =>
    intro h
    rw [splitChar_cons_eq sep a r, if_neg (h a (List.mem_cons_self _ _)),
      ih (fun c hc => h c (List.mem_cons_of_mem _ hc))]

theorem mem_splitChar (sep : Char) : ∀ (l : List Char) (c : Char),
    c ∈ l → c = sep ∨ ∃ t ∈ splitChar sep l, c ∈ t := by
  intro l
  induction l with
  | nil => intro c hc; simp at hc
  | cons a r ih =>
    intro c hc
    by_cases ha : a = sep
    · rcases List.mem_cons.mp hc with rfl | hcr
      · exact Or.inl ha
      · rcases ih c hcr with h | ⟨t, ht, hct⟩
        · exact Or.inl h
        · refine Or.inr ⟨t, ?_, hct⟩
          rw [splitChar_cons_eq sep a r, if_pos ha]
          exact List.mem_cons_of_mem _ ht
    · cases hsp : splitChar sep r with
      | nil => exact absurd hsp (splitChar_ne_nil sep r)
      | cons t0 ts =>
        have heq : splitChar sep (a :: r) = (a :: t0) :: ts := by
          rw [splitChar_cons_eq sep a r, if_neg ha, hsp]
        rcases List.mem_cons.mp hc with hca | hcr
        · exact Or.inr ⟨a :: t0, by rw [heq]; exact List.mem_cons_self _ _,
            by rw [hca]; exact List.mem_cons_self _ _⟩
        · rcases ih c hcr with h | ⟨t, ht, hct⟩
          · exact Or.inl h
          · rw [hsp] at ht
            rcases List.mem_cons.mp ht with ht0 | hts
            · exact Or.inr ⟨a :: t0, by rw [heq]; exact List.mem_cons_self _ _,
                List.mem_cons_of_mem _ (ht0 ▸ hct)⟩
            · exact Or.inr ⟨t, by rw [heq]; exact List.mem_cons_of_mem _ hts, hct⟩

theorem goAtoiLoop_digits : ∀ (l : List Char) (acc : Int),
    (∀ c ∈ l, c.isDigit = true) → ∃ v, goAtoiLoop acc l = some v := by
  intro l
  induction l with
  | nil => intro acc _; exact ⟨acc, rfl⟩
  | cons c r ih =>
    intro acc h
    unfold goAtoiLoop
    rw [if_pos (h c (List.mem_cons_self _ _))]
    exact ih _ (fun c' hc' => h c' (List.mem_cons_of_mem _ hc'))

theorem goAtoi_of_digits (l : List Char) (hne : l ≠ [])
    (hd : ∀ c ∈ l, c.isDigit = true) : ∃ v, goAtoi l = some v := by
  unfold goAtoi
  split
  · exact absurd rfl hne
  · rename_i r
    exact absurd (hd '+' (List.mem_cons_self _ _)) (by decide)
  · rename_i r
    exact absurd (hd '-' (List.mem_cons_self _ _)) (by decide)
  · exact goAtoiLoop_digits l 0 hd

theorem goAtoi_neg_digits (r : List Char) (hne : ¬r = [])
    (hd : ∀ c ∈ r, c.isDigit = true) : ∃ v, goAtoi ('-' :: r) = some v := by
  obtain ⟨v, hv⟩ := goAtoiLoop_digits r 0 hd
  refine ⟨-v, ?_⟩
  show (if r = [] then none else (goAtoiLoop 0 r).map (fun v => -v)) = some (-v)
  rw [if_neg hne, hv]
  rfl

/-- Every token the monthly pattern admits parses to some integer. -/
theorem isNumTok_atoi (neg : Bool) (t : List Char) (h : isNumTok neg t = true) :
    ∃ v, goAtoi t = some v := by
  unfold isNumTok at h
  split at h
  · simp only [Bool.and_eq_true] at h
    refine goAtoi_neg_digits _ (by simp) ?_
    intro c' hc'
    simp at hc'
    subst hc'
    exact h.2
  · simp only [Bool.and_eq_true] at h
    refine goAtoi_neg_digits _ (by simp) ?_
    intro c' hc'
    simp at hc'
    rcases hc' with rfl | rfl
    · exact h.1.2
    · exact h.2
  · refine goAtoi_of_digits _ (by simp) ?_
    intro c' hc'
    simp at hc'
    subst hc'
    exact h
  · simp only [Bool.and_eq_true] at h
    refine goAtoi_of_digits _ (by simp) ?_
    intro c' hc'
    simp at hc'
    rcases hc' with rfl | rfl
    · exact h.1
    · exact h.2
  · exact absurd h (by simp)

/-- Under the weekly pattern, every comma-separated token is a single digit. -/
theorem reWeek_parts (rest : List Char) (h : reWeek ('w' :: ' ' :: rest) = true) :
    ∀ t ∈ splitChar ',' rest, ∃ c, t = [c] ∧ c.isDigit = true := by
  have h' : (splitChar ',' rest).all (fun t =>
      match t with
      | [c] => c.isDigit
      | _ => false) = true := h
  rw [List.all_eq_true] at h'
  intro t ht
  have hT := h' t ht
  split at hT
  · rename_i c
    exact ⟨c, rfl, hT⟩
  · exact absurd hT (by simp)

/-- Under the monthly pattern, the remainder splits into one or two groups of
validated tokens. -/
theorem reMonth_parts (rest : List Char) (h : reMonth ('m' :: ' ' :: rest) = true) :
    (∃ g1, splitChar ' ' rest = [g1] ∧
      ∀ t ∈ splitChar ',' g1, isNumTok true t = true) ∨
    (∃ g1 g2, splitChar ' ' rest = [g1, g2] ∧
      (∀ t ∈ splitChar ',' g1, isNumTok true t = true) ∧
      (∀ t ∈ splitChar ',' g2, isNumTok false t = true)) := by
  have h' : (match splitChar ' ' rest with
      | [g1] => (splitChar ',' g1).all (isNumTok true)
      | [g1, g2] =>
        (splitChar ',' g1).all (isNumTok true) && (splitChar ',' g2).all (isNumTok false)
      | _ => false) = true := h
  split at h'
  · rename_i g1 heq
    rw [List.all_eq_true] at h'
    exact Or.inl ⟨g1, heq, h'⟩
  · rename_i g1 g2 heq
    rw [Bool.and_eq_true, List.all_eq_true, List.all_eq_true] at h'
    exact Or.inr ⟨g1, g2, heq, h'.1, h'.2⟩
  · exact absurd h' (by simp)

theorem parseWeekdayList_err : ∀ L : List (List Char),
    (∀ t ∈ L, ∃ v, goAtoi t = some v) →
    (∃ t ∈ L, ∃ v, goAtoi t = some v ∧ (v ≤ 0 ∨ v > 7)) →
    parseWeekdayList L = .error .invalidWeekdayInterval := by
  intro L
  induction L with
  | nil => intro _ hex; simp at hex
  | cons a rest ih =>
    intro hall hex
    obtain ⟨va, hva⟩ := hall a (List.mem_cons_self _ _)
    unfold parseWeekdayList
    rw [hva]
    dsimp only
    by_cases hr : va ≤ 0 ∨ va > 7
    · rw [if_pos hr]
    · rw [if_neg hr]
      have hex' : ∃ t ∈ rest, ∃ v, goAtoi t = some v ∧ (v ≤ 0 ∨ v > 7) := by
        rcases hex with ⟨t, ht, v, hv, hvr⟩
        rcases List.mem_cons.mp ht with rfl | htr
        · rw [hva] at hv
          injection hv with hv
          subst hv
          exact absurd hvr hr
        · exact ⟨t, htr, v, hv, hvr⟩
      rw [ih (fun t ht => hall t (List.mem_cons_of_mem _ ht)) hex']

theorem parseMonthdayList_err : ∀ L : List (List Char),
    (∀ t ∈ L, ∃ v, goAtoi t = some v) →
    (∃ t ∈ L, ∃ v, goAtoi t = some v ∧
      ((v ≠ lastDayOfMonth ∧ v ≠ beforeLastDayOfMonth) ∧ (v ≤ 0 ∨ v > 31))) →
    parseMonthdayList L = .error .invalidMonthdayInterval := by
  intro L
  induction L with
  | nil => intro _ hex; simp at hex
  | cons a rest ih =>
    intro hall hex
    obtain ⟨va, hva⟩ := hall a (List.mem_cons_self _ _)
    unfold parseMonthdayList
    rw [hva]
    dsimp only
    by_cases hr : (va ≠ lastDayOfMonth ∧ va ≠ beforeLastDayOfMonth) ∧ (va ≤ 0 ∨ va > 31)
    · rw [if_pos hr]
    · rw [if_neg hr]
      have hex' : ∃ t ∈ rest, ∃ v, goAtoi t = some v ∧
          ((v ≠ lastDayOfMonth ∧ v ≠ beforeLastDayOfMonth) ∧ (v ≤ 0 ∨ v > 31)) := by
        rcases hex with ⟨t, ht, v, hv, hvr⟩
        rcases List.mem_cons.mp ht with rfl | htr
        · rw [hva] at hv
          injection hv with hv
          subst hv
          exact absurd hvr hr
        · exact ⟨t, htr, v, hv, hvr⟩
      rw [ih (fun t ht => hall t (List.mem_cons_of_mem _ ht)) hex']

theorem parseMonthList_err : ∀ L : List (List Char),
    (∀ t ∈ L, ∃ v, goAtoi t = some v) →
    (∃ t ∈ L, ∃ v, goAtoi t = some v ∧ (v ≤ 0 ∨ v > 12)) →
    parseMonthList L = .error .invalidMonthInterval := by
  intro L
  induction L with
  | nil => intro _ hex; simp at hex
  | cons a rest ih =>
    intro hall hex
    obtain ⟨va, hva⟩ := hall a (List.mem_cons_self _ _)
    unfold parseMonthList
    rw [hva]
    dsimp only
    by_cases hr : va ≤ 0 ∨ va > 12
    · rw [if_pos hr]
    · rw [if_neg hr]
      have hex' : ∃ t ∈ rest, ∃ v, goAtoi t = some v ∧ (v ≤ 0 ∨ v > 12) := by
        rcases hex with ⟨t, ht, v, hv, hvr⟩
        rcases List.mem_cons.mp ht with rfl | htr
        · rw [hva] at hv
          injection hv with hv
          subst hv
          exact absurd hvr hr
        · exact ⟨t, htr, v, hv, hvr⟩
      rw [ih (fun t ht => hall t (List.mem_cons_of_mem _ ht)) hex']

theorem nextDaily_err (now start : GoTime) (rep : String) (n : Int)
    (hn : goAtoi ((splitChar ' ' rep.data).getD 1 []) = some n)
    (hr : n ≤ 0 ∨ n > maxDaysInterval) :
    nextDaily now start rep = .error .invalidDayInterval := by
  unfold nextDaily
  dsimp only
  rw [hn]
  dsimp only
  rw [dif_pos hr]

theorem nextWeekly_err (now start : GoTime) (rep : String) (e : NdError)
    (hL : parseWeekdayList (splitChar ','
      ((splitChar ' ' rep.data).getD 1 [])) = .error e) :
    nextWeekly now start rep = .error e := by
  unfold nextWeekly
  dsimp only
  rw [hL]

theorem nextMonthly_err_md (now start : GoTime) (rep : String) (e : NdError)
    (hmd : parseMonthdayList (splitChar ','
      ((splitChar ' ' rep.data).getD 1 [])) = .error e) :
    nextMonthly now start rep = .error e := by
  unfold nextMonthly
  dsimp only
  rw [hmd]

theorem nextMonthly_err_month (now start : GoTime) (rep : String)
    (mdRaw : List Int) (e : NdError)
    (hmd : parseMonthdayList (splitChar ','
      ((splitChar ' ' rep.data).getD 1 [])) = .ok mdRaw)
    (hlen : (splitChar ' ' rep.data).length = expectedPartsWithMonths)
    (hml : parseMonthList (splitChar ','
      ((splitChar ' ' rep.data).getD 2 [])) = .error e) :
    nextMonthly now start rep = .error e := by
  unfold nextMonthly
  dsimp only
  rw [hmd]
  dsimp only
  rw [if_pos hlen, hml]
  rfl

/-- Universal daily out-of-range clause: any matched daily rule whose interval
field is out of range fails with `invalidDayInterval`. -/
theorem nextDate_day_range (now start : GoTime) (dS rep : String) (n : Int)
    (hparse : parseDateDB (goTrimSpace dS) = some start)
    (hmatch : reDay (goTrimSpace rep).data = true)
    (hn : goAtoi ((splitChar ' ' (goTrimSpace rep).data).getD 1 []) = some n)
    (hr : n ≤ 0 ∨ n > maxDaysInterval) :
    NextDate now dS rep = .error .invalidDayInterval := by
  rw [nextDate_daily now start dS rep hmatch hparse]
  exact nextDaily_err _ _ _ n hn hr

/-- Universal weekly out-of-range clause: any matched weekly rule carrying an
out-of-range weekday field fails with `invalidWeekdayInterval`. -/
theorem nextDate_week_range (now start : GoTime) (dS rep : String)
    (hparse : parseDateDB (goTrimSpace dS) = some start)
    (hmatch : reWeek (goTrimSpace rep).data = true)
    (hex : ∃ t ∈ splitChar ',' ((splitChar ' ' (goTrimSpace rep).data).getD 1 []),
      ∃ v, goAtoi t = some v ∧ (v ≤ 0 ∨ v > 7)) :
    NextDate now dS rep = .error .invalidWeekdayInterval := by
  obtain ⟨rest, hrest⟩ := reWeek_shape _ hmatch
  have htok := reWeek_parts rest (hrest ▸ hmatch)
  have hnos : ∀ ch ∈ rest, ¬ch = ' ' := by
    intro ch hch hsp
    rcases mem_splitChar ',' rest ch hch with hc | ⟨t, ht, hct⟩
    · rw [hsp] at hc
      exact absurd hc (by decide)
    · obtain ⟨c, hc, hcd⟩ := htok t ht
      subst hc
      simp at hct
      rw [hct] at hsp
      rw [hsp] at hcd
      exact absurd hcd (by decide)
  have hgd : (splitChar ' ' (goTrimSpace rep).data).getD 1 [] = rest := by
    rw [hrest, splitChar_sep_cons ' ' 'w' rest (by decide),
      splitChar_no_sep ' ' rest hnos]
    rfl
  have hall : ∀ t ∈ splitChar ','
      ((splitChar ' ' (goTrimSpace rep).data).getD 1 []), ∃ v, goAtoi t = some v := by
    rw [hgd]
    intro t ht
    obtain ⟨c, hc, hcd⟩ := htok t ht
    subst hc
    refine goAtoi_of_digits [c] (by simp) ?_
    intro c' hc'
    simp at hc'
    subst hc'
    exact hcd
  rw [nextDate_weekly now start dS rep hmatch hparse]
  exact nextWeekly_err _ _ _ _ (parseWeekdayList_err _ hall hex)

/-- Universal monthly day-spec out-of-range clause: any matched monthly rule
carrying an out-of-range day field fails with `invalidMonthdayInterval`. -/
theorem nextDate_monthday_range (now start : GoTime) (dS rep : String)
    (hparse : parseDateDB (goTrimSpace dS) = some start)
    (hmatch : reMonth (goTrimSpace rep).data = true)
    (hex : ∃ t ∈ splitChar ',' ((splitChar ' ' (goTrimSpace rep).data).getD 1 []),
      ∃ v, goAtoi t = some v ∧
        ((v ≠ lastDayOfMonth ∧ v ≠ beforeLastDayOfMonth) ∧ (v ≤ 0 ∨ v > 31))) :
    NextDate now dS rep = .error .invalidMonthdayInterval := by
  obtain ⟨rest, hrest⟩ := reMonth_shape _ hmatch
  have hsp1 := splitChar_sep_cons ' ' 'm' rest (by decide)
  have hall : ∀ t ∈ splitChar ','
      ((splitChar ' ' (goTrimSpace rep).data).getD 1 []), ∃ v, goAtoi t = some v := by
    rcases reMonth_parts rest (hrest ▸ hmatch) with
      ⟨g1, hg, htok⟩ | ⟨g1, g2, hg, htok, _⟩ <;>
    · have hgd : (splitChar ' ' (goTrimSpace rep).data).getD 1 [] = g1 := by
        rw [hrest, hsp1, hg]
        rfl
      rw [hgd]
      intro t ht
      exact isNumTok_atoi true t (htok t ht)
  rw [nextDate_monthly now start dS rep hmatch hparse]
  exact nextMonthly_err_md _ _ _ _ (parseMonthdayList_err _ hall hex)

/-- Universal monthly month-group out-of-range clause: any matched monthly
rule with a valid day group, a month group present, and an out-of-range month
field fails with `invalidMonthInterval`. -/
theorem nextDate_month_range (now start : GoTime) (dS rep : String)
    (mdRaw : List Int)
    (hparse : parseDateDB (goTrimSpace dS) = some start)
    (hmatch : reMonth (goTrimSpace rep).data = true)
    (hmd : parseMonthdayList (splitChar ','
      ((splitChar ' ' (goTrimSpace rep).data).getD 1 [])) = .ok mdRaw)
    (hlen : (splitChar ' ' (goTrimSpace rep).data).length = expectedPartsWithMonths)
    (hex : ∃ t ∈ splitChar ',' ((splitChar ' ' (goTrimSpace rep).data).getD 2 []),
      ∃ v, goAtoi t = some v ∧ (v ≤ 0 ∨ v > 12)) :
    NextDate now dS rep = .error .invalidMonthInterval := by
  obtain ⟨rest, hrest⟩ := reMonth_shape _ hmatch
  have hsp1 := splitChar_sep_cons ' ' 'm' rest (by decide)
  rcases reMonth_parts rest (hrest ▸ hmatch) with
    ⟨g1, hg, htok⟩ | ⟨g1, g2, hg, htok1, htok2⟩
  · exfalso
    rw [hrest, hsp1, hg] at hlen
    simp [expectedPartsWithMonths] at hlen
  · have hgd2 : (splitChar ' ' (goTrimSpace rep).data).getD 2 [] = g2 := by
      rw [hrest, hsp1, hg]
      rfl
    have hall : ∀ t ∈ splitChar ','
        ((splitChar ' ' (goTrimSpace rep).data).getD 2 []), ∃ v, goAtoi t = some v := by
      rw [hgd2]
      intro t ht
      exact isNumTok_atoi false t (htok2 t ht)
    rw [nextDate_monthly now start dS rep hmatch hparse]
    exact nextMonthly_err_month _ _ _ mdRaw _ hmd hlen (parseMonthList_err _ hall hex)

/- ### The claims -/

/-- C1: for every daily rule "d n" with 1 ≤ n ≤ 400 and every validly
formatted start and now, `NextDate` returns the date start + k·n days, where k
is the smallest k ≥ 1 such that start + k·n days is strictly after the
midnight-normalization of now. -/
theorem C1_daily (now start : GoTime) (dS rep : String) (n : Int)
    (hmatch : reDay (goTrimSpace rep).data = true)
    (hn : goAtoi ((splitChar ' ' (goTrimSpace rep).data).getD 1 []) = some n)
    (h1 : 1 ≤ n) (h2 : n ≤ 400)
    (hparse : parseDateDB (goTrimSpace dS) = some start) :
    ∃ k : Int, 1 ≤ k ∧ (midnight now).day < start.day + k * n ∧
      (∀ j : Int, 1 ≤ j → (midnight now).day < start.day + j * n → k ≤ j) ∧
      NextDate now dS rep = .ok (formatDate ⟨start.day + k * n, 0⟩) := by
  obtain ⟨y0, m0, d0, hm1, hm2, hd1, hd2, hstart⟩ := parseDateDB_shape _ _ hparse
  have hssec : start.sec = 0 := by rw [hstart]
  have hl := least_step (now.day - start.day) n (by omega)
  refine ⟨max 1 ((now.day - start.day) / n + 1), hl.1, ?_, ?_, ?_⟩
  · show now.day < start.day + max 1 ((now.day - start.day) / n + 1) * n
    linarith [hl.2.1]
  · intro j hj hlt
    have hlt' : now.day < start.day + j * n := hlt
    exact hl.2.2 j hj (by linarith)
  · rw [nextDate_daily now start dS rep hmatch hparse,
      nextDaily_spec (midnight now) start (goTrimSpace rep) n hn h1 h2 rfl hssec]
    rfl

/-- Witness for C1 at rule " d 7 ", start 20250101, now 2025-01-10 08:20. -/
theorem C1_daily_witness :
    ∃ k : Int, 1 ≤ k ∧
      (midnight ⟨toDays 2025 1 10, 30000⟩).day <
        (⟨toDays 2025 1 1, 0⟩ : GoTime).day + k * 7 ∧
      (∀ j : Int, 1 ≤ j →
        (midnight ⟨toDays 2025 1 10, 30000⟩).day <
          (⟨toDays 2025 1 1, 0⟩ : GoTime).day + j * 7 → k ≤ j) ∧
      NextDate ⟨toDays 2025 1 10, 30000⟩ "20250101" " d 7 " =
        .ok (formatDate ⟨(⟨toDays 2025 1 1, 0⟩ : GoTime).day + k * 7, 0⟩) :=
  C1_daily ⟨toDays 2025 1 10, 30000⟩ ⟨toDays 2025 1 1, 0⟩ "20250101" " d 7 " 7
    (by rfl) (by rfl) (by norm_num) (by norm_num) (by rfl)

/-- C2: for rule "d 3", start 20240301, now 20240305, `NextDate` returns
20240307 — the specified 20240306 is wrong (20240306 is not even on the
3-day grid from 20240301). -/
theorem C2_daily_scenario :
    NextDate ⟨toDays 2024 3 5, 0⟩ "20240301" "d 3" = .ok "20240307" :=
  nextDate_d3_concrete

/-- C2 counterexample: the result of the claimed scenario is not 20240306. -/
theorem C2_counterexample :
    NextDate ⟨toDays 2024 3 5, 0⟩ "20240301" "d 3" ≠ .ok "20240306" := by
  rw [nextDate_d3_concrete]
  intro h
  exact absurd (Except.ok.inj h) (by decide)

/-- C2 amended: the scenario's result is 2024-03-07 (start + 2·3 days, the
first grid date strictly after now). -/
theorem C2_amended :
    NextDate ⟨toDays 2024 3 5, 0⟩ "20240301" "d 3" =
      .ok (formatDate ⟨toDays 2024 3 7, 0⟩) := by
  rw [nextDate_d3_concrete]
  rfl

/-- C3: for the yearly rule "y", `NextDate` returns start advanced by the
smallest number k ≥ 1 of `AddDate(1, 0, 0)` steps placing it strictly after
the midnight-normalization of now. (The claim's parenthetical — that a Feb-29
start keeps its month and day when the target year is a leap year — is false:
see the counterexample and the amended theorem.) -/
theorem C3_yearly (now start : GoTime) (dS rep : String)
    (hrep : goTrimSpace rep = "y")
    (hparse : parseDateDB (goTrimSpace dS) = some start) :
    ∃ k : Nat, 1 ≤ k ∧ NextDate now dS rep = .ok (formatDate (addYear^[k] start)) ∧
      (midnight now).day < (addYear^[k] start).day ∧
      ∀ j : Nat, 1 ≤ j → j < k → ¬ (midnight now).day < (addYear^[j] start).day := by
  obtain ⟨y0, m0, d0, hm1, hm2, hd1, hd2, hstart⟩ := parseDateDB_shape _ _ hparse
  have hssec : start.sec = 0 := by rw [hstart]
  obtain ⟨k, hk1, hkeq, hkaft, hkmin⟩ :=
    yearlyLoop_spec (midnight now) (((midnight now).day + 1 - start.day).toNat) start rfl
  refine ⟨k, hk1, ?_, ?_, ?_⟩
  · rw [nextDate_yearly now start dS rep hrep hparse]
    unfold nextYearly
    rw [hkeq]
  · rw [← afterNow_iff (midnight now) _ rfl
      (by rw [addYear_iter_sec k start]; exact hssec)]
    exact hkaft
  · intro j hj1 hjk
    rw [← afterNow_iff (midnight now) _ rfl
      (by rw [addYear_iter_sec j start]; exact hssec)]
    rw [hkmin j hj1 hjk]
    simp

/-- Witness for C3 at rule "y", start 20200115, now 2024-06-01. -/
theorem C3_yearly_witness :
    ∃ k : Nat, 1 ≤ k ∧
      NextDate ⟨toDays 2024 6 1, 0⟩ "20200115" "y" =
        .ok (formatDate (addYear^[k] ⟨toDays 2020 1 15, 0⟩)) ∧
      (midnight ⟨toDays 2024 6 1, 0⟩).day <
        (addYear^[k] ⟨toDays 2020 1 15, 0⟩).day ∧
      ∀ j : Nat, 1 ≤ j → j < k →
        ¬ (midnight ⟨toDays 2024 6 1, 0⟩).day <
          (addYear^[j] ⟨toDays 2020 1 15, 0⟩).day :=
  C3_yearly ⟨toDays 2024 6 1, 0⟩ ⟨toDays 2020 1 15, 0⟩ "20200115" "y"
    (by rfl) (by rfl)

/-- C3 counterexample: start 2024-02-29, now 2027-12-31. The target year 2028
is a leap year, yet the result is 2028-03-01, not 2028-02-29: the very first
`AddDate(1, 0, 0)` lands on the nonexistent 2025-02-29 and normalizes to
March 1, and every later step stays on March 1. -/
theorem C3_counterexample :
    NextDate ⟨toDays 2027 12 31, 0⟩ "20240229" "y" = .ok "20280301" ∧
    isLeap 2028 = true ∧ ("20280301" : String) ≠ "20280229" :=
  ⟨nextDate_feb29_concrete, by decide, by decide⟩

/-- C3 amended: from a February 29 start, every yearly step (one or more)
lands on March 1 — the first `AddDate(1, 0, 0)` normalizes Feb 29 to Mar 1 of
the following (non-leap) year, and later steps keep Mar 1, regardless of the
target year being leap. -/
theorem C3_amended (y : Int) (k : Nat) (hl : isLeap y = true) (hk : 1 ≤ k) :
    addYear^[k] ⟨toDays y 2 29, 0⟩ = ⟨toDays (y + k) 3 1, 0⟩ :=
  addYear_feb29 y hl k hk

/-- C4: for every weekly rule with parsed weekday list and validly formatted
start and now, the returned date's ISO weekday (Monday=1..Sunday=7) is in the
requested set, and the date is strictly after the base time — so never the
base day itself, even when the base day's weekday is requested. -/
theorem C4_weekly (now start : GoTime) (dS rep : String) (ws : List Int)
    (hmatch : reWeek (goTrimSpace rep).data = true)
    (hws : parseWeekdayList (splitChar ','
      ((splitChar ' ' (goTrimSpace rep).data).getD 1 [])) = .ok ws)
    (hparse : parseDateDB (goTrimSpace dS) = some start) :
    ∃ r : GoTime, NextDate now dS rep = .ok (formatDate r) ∧
      (if goWeekday r = 0 then sundayNum else goWeekday r) ∈ ws ∧
      (computeBaseTime (midnight now) start).day < r.day ∧
      (midnight now).day < r.day := by
  obtain ⟨y0, m0, d0, hm1, hm2, hd1, hd2, hstart⟩ := parseDateDB_shape _ _ hparse
  have hssec : start.sec = 0 := by rw [hstart]
  have hne : ws ≠ [] := by
    have hsp := splitChar_ne_nil ',' ((splitChar ' ' (goTrimSpace rep).data).getD 1 [])
    cases hL : splitChar ',' ((splitChar ' ' (goTrimSpace rep).data).getD 1 []) with
    | nil => exact absurd hL hsp
    | cons a rest =>
      rw [hL] at hws
      exact parseWeekdayList_cons_ne_nil a rest ws hws
  obtain ⟨r, hr1, hr2, hr3, hr4, hr5⟩ :=
    nextWeekly_ok (midnight now) start (goTrimSpace rep) ws hws hne rfl hssec
  refine ⟨r, ?_, hr2, hr3, hr4⟩
  rw [nextDate_weekly now start dS rep hmatch hparse, hr1]

/-- Witness for C4 at rule "w 1,3", start 20240301, now 2024-03-05 (Tuesday). -/
theorem C4_weekly_witness :
    ∃ r : GoTime,
      NextDate ⟨toDays 2024 3 5, 0⟩ "20240301" "w 1,3" = .ok (formatDate r) ∧
      (if goWeekday r = 0 then sundayNum else goWeekday r) ∈ [1, 3] ∧
      (computeBaseTime (midnight ⟨toDays 2024 3 5, 0⟩) ⟨toDays 2024 3 1, 0⟩).day <
        r.day ∧
      (midnight ⟨toDays 2024 3 5, 0⟩).day < r.day :=
  C4_weekly ⟨toDays 2024 3 5, 0⟩ ⟨toDays 2024 3 1, 0⟩ "20240301" "w 1,3" [1, 3]
    (by rfl) (by rfl) (by rfl)

/-- C5: for every monthly rule that `NextDate` resolves successfully, the
returned date's month is in the requested month set (all twelve when the month
group is absent), its day is one of the requested day specs resolved for that
(year, month), the date is strictly after midnight-normalized now, and a
requested day exceeding the month's length is skipped (the result's day never
exceeds the month's length and always equals a resolved spec — never a clamp,
never an error by itself). -/
theorem C5_monthly (now start : GoTime) (dS rep res : String)
    (mdRaw msRaw monthsInt : List Int)
    (hmatch : reMonth (goTrimSpace rep).data = true)
    (hparse : parseDateDB (goTrimSpace dS) = some start)
    (hmd : parseMonthdayList (splitChar ','
      ((splitChar ' ' (goTrimSpace rep).data).getD 1 [])) = .ok mdRaw)
    (hms : (if (splitChar ' ' (goTrimSpace rep).data).length = expectedPartsWithMonths
        then (parseMonthList (splitChar ','
          ((splitChar ' ' (goTrimSpace rep).data).getD 2 []))).map sortUniqueInts
        else .ok []) = .ok msRaw)
    (hmonths : monthsInt = if msRaw = [] then allMonths else msRaw)
    (hok : NextDate now dS rep = .ok res) :
    ∃ y m md, res = formatDate ⟨toDays y m md, 0⟩ ∧ m ∈ monthsInt ∧
      md ∈ resolveDays (sortUniqueInts mdRaw) y m ∧ 1 ≤ m ∧ m ≤ 12 ∧
      1 ≤ md ∧ md ≤ daysIn y m ∧ (midnight now).day < toDays y m md := by
  obtain ⟨y0, m0, d0, hm1, hm2, hd1, hd2, hstart⟩ := parseDateDB_shape _ _ hparse
  have hssec : start.sec = 0 := by rw [hstart]
  rw [nextDate_monthly now start dS rep hmatch hparse] at hok
  exact nextMonthly_ok (midnight now) start (goTrimSpace rep) mdRaw msRaw monthsInt
    res hmd hms hmonths rfl hssec hok

/-- Witness for C5 at rule "m 10,20 2,5", start 20240101, now 2024-03-15. -/
theorem C5_monthly_witness :
    ∃ y m md, ("20240510" : String) = formatDate ⟨toDays y m md, 0⟩ ∧
      m ∈ [2, 5] ∧ md ∈ resolveDays (sortUniqueInts [10, 20]) y m ∧
      1 ≤ m ∧ m ≤ 12 ∧ 1 ≤ md ∧ md ≤ daysIn y m ∧
      (midnight ⟨toDays 2024 3 15, 0⟩).day < toDays y m md :=
  C5_monthly ⟨toDays 2024 3 15, 0⟩ ⟨toDays 2024 1 1, 0⟩ "20240101" "m 10,20 2,5"
    "20240510" [10, 20] [2, 5] [2, 5]
    (by rfl) (by rfl) (by rfl) (by rfl) (by rfl) (by rfl)

/-- C6: rule "m -1", start 20240101, now 20240215 gives 20240229 (the last day
of leap-year February); in general the spec -1 resolves to the last day and
-2 to the second-to-last day of each candidate (year, month), across month
lengths and leap years. -/
theorem C6_monthly_lastday :
    NextDate ⟨toDays 2024 2 15, 0⟩ "20240101" "m -1" = .ok "20240229" ∧
    ∀ y m : Int, 1 ≤ m → m ≤ 12 →
      resolveDays [lastDayOfMonth] y m = [daysIn y m] ∧
      resolveDays [beforeLastDayOfMonth] y m = [daysIn y m - 1] :=
  ⟨nextDate_mlast_concrete, fun y m h1 h2 =>
    ⟨resolveDays_last y m h1 h2, resolveDays_secondLast y m h1 h2⟩⟩

/-- C7: a monthly rule whose resolved days overflow every scanned month in
every year fails with `noMatchingDay` and returns no date. -/
theorem C7_monthly_never (now start : GoTime) (dS rep : String)
    (mdRaw msRaw monthsInt : List Int)
    (hmatch : reMonth (goTrimSpace rep).data = true)
    (hparse : parseDateDB (goTrimSpace dS) = some start)
    (hmd : parseMonthdayList (splitChar ','
      ((splitChar ' ' (goTrimSpace rep).data).getD 1 [])) = .ok mdRaw)
    (hms : (if (splitChar ' ' (goTrimSpace rep).data).length = expectedPartsWithMonths
        then (parseMonthList (splitChar ','
          ((splitChar ' ' (goTrimSpace rep).data).getD 2 []))).map sortUniqueInts
        else .ok []) = .ok msRaw)
    (hmonths : monthsInt = if msRaw = [] then allMonths else msRaw)
    (H : ∀ m ∈ monthsInt, ∀ y : Int, ∀ md ∈ resolveDays (sortUniqueInts mdRaw) y m,
      computeLastMonthDay y m < md) :
    NextDate now dS rep = .error .noMatchingDay := by
  rw [nextDate_monthly now start dS rep hmatch hparse]
  exact nextMonthly_nomatch (midnight now) start (goTrimSpace rep) mdRaw msRaw
    monthsInt hmd hms hmonths H

/-- Witness for C7: rule "m 31 4,6,9,11" — none of April, June, September,
November has a 31st day, in any year. -/
theorem C7_monthly_never_witness :
    NextDate ⟨toDays 2024 1 5, 0⟩ "20240102" "m 31 4,6,9,11" =
      .error .noMatchingDay :=
  C7_monthly_never ⟨toDays 2024 1 5, 0⟩ ⟨toDays 2024 1 2, 0⟩ "20240102"
    "m 31 4,6,9,11" [31] [4, 6, 9, 11] [4, 6, 9, 11]
    (by rfl) (by rfl) (by rfl) (by rfl) (by rfl)
    (by
      intro m hm y md hmd
      have hres : resolveDays (sortUniqueInts [31]) y m = [31] := rfl
      rw [hres] at hmd
      have h31 : md = 31 := by simpa using hmd
      subst h31
      fin_cases hm <;>
        rw [computeLastMonthDay_eq _ _ (by norm_num) (by norm_num)] <;>
        norm_num [daysIn])

/-- C8: `NextDate` classifies every failure into exactly one error kind and
never returns a partial result: an empty rule fails with `emptyRule` before
pattern matching; a rule matching no pattern fails with `unsupportedFormat`;
a rule matching a pattern but carrying an out-of-range numeric field fails
with the matching numeric-field error (`invalidDayInterval`,
`invalidWeekdayInterval`, `invalidMonthdayInterval`, `invalidMonthInterval` —
the spec's InvalidNumericField), stated universally for each of the four
patterns, with "d 500" (over the 400-day cap) and the instances "d 0", "w 8",
"m 0", "m 1 13" as particular cases; and every call yields exactly one date or
exactly one error. -/
theorem C8_errors :
    (∀ (now : GoTime) (dS rep : String), goTrimSpace rep = "" →
      NextDate now dS rep = .error .emptyRule) ∧
    (∀ (now start : GoTime) (dS rep : String), goTrimSpace rep ≠ "" →
      parseDateDB (goTrimSpace dS) = some start →
      reDay (goTrimSpace rep).data = false →
      reYear (goTrimSpace rep).data = false →
      reWeek (goTrimSpace rep).data = false →
      reMonth (goTrimSpace rep).data = false →
      NextDate now dS rep = .error .unsupportedFormat) ∧
    (∀ (now start : GoTime) (dS rep : String) (n : Int),
      parseDateDB (goTrimSpace dS) = some start →
      reDay (goTrimSpace rep).data = true →
      goAtoi ((splitChar ' ' (goTrimSpace rep).data).getD 1 []) = some n →
      n ≤ 0 ∨ n > maxDaysInterval →
      NextDate now dS rep = .error .invalidDayInterval) ∧
    (∀ (now start : GoTime) (dS rep : String),
      parseDateDB (goTrimSpace dS) = some start →
      reWeek (goTrimSpace rep).data = true →
      (∃ t ∈ splitChar ',' ((splitChar ' ' (goTrimSpace rep).data).getD 1 []),
        ∃ v, goAtoi t = some v ∧ (v ≤ 0 ∨ v > 7)) →
      NextDate now dS rep = .error .invalidWeekdayInterval) ∧
    (∀ (now start : GoTime) (dS rep : String),
      parseDateDB (goTrimSpace dS) = some start →
      reMonth (goTrimSpace rep).data = true →
      (∃ t ∈ splitChar ',' ((splitChar ' ' (goTrimSpace rep).data).getD 1 []),
        ∃ v, goAtoi t = some v ∧
          ((v ≠ lastDayOfMonth ∧ v ≠ beforeLastDayOfMonth) ∧ (v ≤ 0 ∨ v > 31))) →
      NextDate now dS rep = .error .invalidMonthdayInterval) ∧
    (∀ (now start : GoTime) (dS rep : String) (mdRaw : List Int),
      parseDateDB (goTrimSpace dS) = some start →
      reMonth (goTrimSpace rep).data = true →
      parseMonthdayList (splitChar ','
        ((splitChar ' ' (goTrimSpace rep).data).getD 1 [])) = .ok mdRaw →
      (splitChar ' ' (goTrimSpace rep).data).length = expectedPartsWithMonths →
      (∃ t ∈ splitChar ',' ((splitChar ' ' (goTrimSpace rep).data).getD 2 []),
        ∃ v, goAtoi t = some v ∧ (v ≤ 0 ∨ v > 12)) →
      NextDate now dS rep = .error .invalidMonthInterval) ∧
    (∀ (now start : GoTime) (dS : String),
      parseDateDB (goTrimSpace dS) = some start →
      NextDate now dS "d 500" = .error .invalidDayInterval) ∧
    (∀ now : GoTime,
      NextDate now "20240101" "d 0" = .error .invalidDayInterval ∧
      NextDate now "20240101" "w 8" = .error .invalidWeekdayInterval ∧
      NextDate now "20240101" "m 0" = .error .invalidMonthdayInterval ∧
      NextDate now "20240101" "m 1 13" = .error .invalidMonthInterval) ∧
    (∀ (now : GoTime) (dS rep : String),
      (∃ s, NextDate now dS rep = .ok s ∧ ∀ e, NextDate now dS rep ≠ .error e) ∨
      (∃ e, NextDate now dS rep = .error e ∧ ∀ s, NextDate now dS rep ≠ .ok s)) :=
  ⟨nextDate_empty, nextDate_unsupported,
    fun now start dS rep n hp hm hn hr => nextDate_day_range now start dS rep n hp hm hn hr,
    fun now start dS rep hp hm hex => nextDate_week_range now start dS rep hp hm hex,
    fun now start dS rep hp hm hex => nextDate_monthday_range now start dS rep hp hm hex,
    fun now start dS rep mdRaw hp hm hmd hlen hex =>
      nextDate_month_range now start dS rep mdRaw hp hm hmd hlen hex,
    nextDate_d500,
    fun now => ⟨rfl, rfl, rfl, rfl⟩,
    nextDate_total⟩

/-- C9: the daily and yearly loops each advance the date strictly (by n ≥ 1
days, or by at least one year), and terminate after k ≥ 1 steps with k bounded
by the day gap divided by the step size; `NextDate` is total on these rules. -/
theorem C9_termination (now s : GoTime) (n : Int) (hn : 0 < n)
    (hnsec : now.sec = 0) (hssec : s.sec = 0) :
    s.day < (addDate s 0 0 n).day ∧ s.day < (addDate s 1 0 0).day ∧
    (∃ k : Nat, 1 ≤ k ∧ dailyLoop now n hn s = (addDays n)^[k] s ∧
      (k : Int) ≤ max 1 ((now.day - s.day) / n + 1)) ∧
    (∃ k : Nat, 1 ≤ k ∧ yearlyLoop now s = addYear^[k] s ∧
      (k : Int) ≤ max 1 ((now.day - s.day) / 365 + 1)) := by
  refine ⟨?_, ?_, ?_, ?_⟩
  · rw [(addDate_days s n).1]
    omega
  · have := addDate_year_ge s
    omega
  · have hd := dailyLoop_day now n hn (((now.day + 1) - s.day).toNat) s rfl hnsec hssec
    have hmx : (1 : Int) ≤ max 1 ((now.day - s.day) / n + 1) := le_max_left _ _
    have hcast : (((max 1 ((now.day - s.day) / n + 1)).toNat : Int)) =
        max 1 ((now.day - s.day) / n + 1) := Int.toNat_of_nonneg (by omega)
    have hiter := addDays_iter n ((max 1 ((now.day - s.day) / n + 1)).toNat) s
    refine ⟨(max 1 ((now.day - s.day) / n + 1)).toNat, by omega, ?_, by omega⟩
    rw [hd]
    refine GoTime.ext' _ _ ?_ ?_
    · show s.day + max 1 ((now.day - s.day) / n + 1) * n = _
      rw [hiter.1, hcast]
    · show (0 : Int) = _
      rw [hiter.2, hssec]
  · obtain ⟨k, hk1, hkeq, hkaft, hkmin⟩ :=
      yearlyLoop_spec now (((now.day + 1) - s.day).toNat) s rfl
    exact ⟨k, hk1, hkeq, yearly_count_le now s k hk1 hkmin⟩

/-- Witness for C9 at now 2024-03-05, start 2024-03-01, n = 3. -/
theorem C9_termination_witness :
    (⟨toDays 2024 3 1, 0⟩ : GoTime).day <
      (addDate ⟨toDays 2024 3 1, 0⟩ 0 0 3).day ∧
    (⟨toDays 2024 3 1, 0⟩ : GoTime).day <
      (addDate ⟨toDays 2024 3 1, 0⟩ 1 0 0).day ∧
    (∃ k : Nat, 1 ≤ k ∧
      dailyLoop ⟨toDays 2024 3 5, 0⟩ 3 (by norm_num) ⟨toDays 2024 3 1, 0⟩ =
        (addDays 3)^[k] ⟨toDays 2024 3 1, 0⟩ ∧
      (k : Int) ≤ max 1 (((⟨toDays 2024 3 5, 0⟩ : GoTime).day -
        (⟨toDays 2024 3 1, 0⟩ : GoTime).day) / 3 + 1)) ∧
    (∃ k : Nat, 1 ≤ k ∧
      yearlyLoop ⟨toDays 2024 3 5, 0⟩ ⟨toDays 2024 3 1, 0⟩ =
        addYear^[k] ⟨toDays 2024 3 1, 0⟩ ∧
      (k : Int) ≤ max 1 (((⟨toDays 2024 3 5, 0⟩ : GoTime).day -
        (⟨toDays 2024 3 1, 0⟩ : GoTime).day) / 365 + 1)) :=
  C9_termination ⟨toDays 2024 3 5, 0⟩ ⟨toDays 2024 3 1, 0⟩ 3 (by norm_num) rfl rfl

/-- C10: `NextDate` trims surrounding whitespace from both the rule and the
start string before anything else, and checks for an empty rule before parsing
the start date: a whitespace-only rule yields `emptyRule` even for an
unparseable start, and padded inputs behave exactly as their trimmed forms. -/
theorem C10_trim :
    (∀ (now : GoTime) (dS rep : String), goTrimSpace rep = "" →
      NextDate now dS rep = .error .emptyRule) ∧
    (∀ (now : GoTime) (dS rep : String),
      NextDate now dS rep = NextDate now (goTrimSpace dS) (goTrimSpace rep)) := by
  refine ⟨nextDate_empty, fun now dS rep => ?_⟩
  unfold NextDate
  rw [goTrimSpace_idem, goTrimSpace_idem]
